import Mathlib

/-!
Verification development for the sloth interpreter (github.com/sean-d/sloth):
a lexer, Pratt parser and tree-walking evaluator for a small dynamically
typed language.  The Go sources are embedded shallowly: Go interface values
that may be `nil` become `Option`, the mutable environment heap and the
allocator become an explicit `World` threaded through evaluation, Go
runtime panics (nil dereference, index out of range, integer division by
zero) become an explicit `RunErr.goPanic` outcome, and the evaluator's
recursion is paid for with a fuel parameter (`RunErr.fuelOut` is an
artifact of the embedding, not a behaviour of the program).  Reference
identity of Go heap objects is modelled by tagging every allocated object
with the address the allocator handed out; the shared TRUE/FALSE/NULL
singletons and the builtin table entries have fixed addresses below the
allocator's starting point.
-/

namespace Sloth

/-! ## object package: object types (object/object.go) -/

abbrev ObjectType := String

def NULL_OBJ : ObjectType := "NULL"

def ERROR_OBJ : ObjectType := "ERROR"

def BUILTIN_OBJ : ObjectType := "BUILTIN"

def INTEGER_OBJ : ObjectType := "INTEGER"

def BOOLEAN_OBJ : ObjectType := "BOOLEAN"

def STRING_OBJ : ObjectType := "STRING"

def RETURN_VALUE_OBJ : ObjectType := "RETURN_VALUE"

def FUNCTION_OBJ : ObjectType := "FUNCTION"

def ARRAY_OBJ : ObjectType := "ARRAY"

def HASH_OBJ : ObjectType := "HASH"

/-- HashKey (object/object.go): `{Type ObjectType; Value uint64}`; the
uint64 is modelled as a `Nat` already reduced mod 2^64. -/
structure HashKey where
  typ : ObjectType
  value : Nat
deriving DecidableEq, Repr

/-- Addresses handed out by the allocator; Go pointer identity of heap
objects is modelled as equality of addresses. -/
abbrev Addr := Nat

/-- References into the environment heap (`World.envs`). -/
abbrev EnvRef := Nat

/-! ## ast package: the node model (ast/ast.go, single `ast.Node` interface)

Go's `ast.Node` is one interface over statements and expressions, and the
evaluator dispatches on it with a single type switch, so the embedding uses
one inductive.  Fields of interface type that the parser can leave `nil`
are `Option`.  The `Token` provenance fields (used only for debugging
output) are omitted.  The array/hash/index node shapes are those consumed
by evaluator/evaluator.go. -/
inductive Node where
  | program (stmts : List Node)
  | blockStmt (stmts : List Node)
  | letStmt (name : String) (value : Option Node)
  | returnStmt (value : Option Node)
  | exprStmt (value : Option Node)
  | identE (value : String)
  | intLit (value : Int)
  | strLit (value : String)
  | boolLit (value : Bool)
  | prefixExpr (op : String) (right : Option Node)
  | infixExpr (op : String) (left : Option Node) (right : Option Node)
  | ifExpr (cond : Option Node) (cons : Node) (alt : Option Node)
  | fnLit (params : List String) (body : Node)
  | callExpr (fn : Option Node) (args : List (Option Node))
  | arrayLit (elems : List (Option Node))
  | hashLit (pairs : List (Option Node × Option Node))
  | indexExpr (left : Option Node) (idx : Option Node)
deriving Repr

/-! ## object package: runtime values (object/object.go)

Every constructor carries the address of its Go allocation.  Builtin
functions are a closed set (evaluator's builtins table has one entry), so
the `Builtin.Fn` field is modelled as a tag dispatched by `applyBuiltin`. -/

inductive BuiltinTag where
  | lenB
deriving DecidableEq, Repr

inductive Obj where
  | integer (addr : Addr) (value : Int)
  | boolean (addr : Addr) (value : Bool)
  | strObj (addr : Addr) (value : String)
  | nullObj (addr : Addr)
  | retVal (addr : Addr) (value : Option Obj)
  | errObj (addr : Addr) (message : String)
  | funObj (addr : Addr) (params : List String) (body : Node) (env : EnvRef)
  | builtinObj (addr : Addr) (tag : BuiltinTag)
  | arrObj (addr : Addr) (elements : List (Option Obj))
  | hashObj (addr : Addr) (pairs : List (HashKey × Obj × Option Obj))
deriving Repr

/-- `Object.Type()` of object/object.go. -/
def typeOf : Obj → ObjectType
  | .integer _ _ => INTEGER_OBJ
  | .boolean _ _ => BOOLEAN_OBJ
  | .strObj _ _ => STRING_OBJ
  | .nullObj _ => NULL_OBJ
  | .retVal _ _ => RETURN_VALUE_OBJ
  | .errObj _ _ => ERROR_OBJ
  | .funObj _ _ _ _ => FUNCTION_OBJ
  | .builtinObj _ _ => BUILTIN_OBJ
  | .arrObj _ _ => ARRAY_OBJ
  | .hashObj _ _ => HASH_OBJ

/-- The address an object was allocated at. -/
def addrOf : Obj → Addr
  | .integer a _ => a
  | .boolean a _ => a
  | .strObj a _ => a
  | .nullObj a => a
  | .retVal a _ => a
  | .errObj a _ => a
  | .funObj a _ _ _ => a
  | .builtinObj a _ => a
  | .arrObj a _ => a
  | .hashObj a _ => a

/-- Go `==` between two non-nil interface values: same dynamic type and
same pointer. -/
def refEq (a b : Obj) : Bool :=
  typeOf a == typeOf b && addrOf a == addrOf b

/-- Go `==` between interface values that may be nil. -/
def goEq : Option Obj → Option Obj → Bool
  | none, none => true
  | some a, some b => refEq a b
  | _, _ => false

/-- The shared singletons of evaluator/evaluator.go, lines 9-13.  They are
the only Boolean and Null objects the evaluator ever constructs; their
fixed addresses 0, 1, 2 (and 3 for the single builtin) lie below
`initialWorld.nextAddr`, so no allocation collides with them. -/
def NULL : Obj := .nullObj 0

def TRUE : Obj := .boolean 1 true

def FALSE : Obj := .boolean 2 false

def LEN_BUILTIN : Obj := .builtinObj 3 .lenB

/-! ## object package: environments (object/environment.go)

`Environment` is `{store map[string]Object; outer *Environment}`.  The
mutable heap of environments lives in `World.envs`, and a Go
`*Environment` is an index into it.  A stored value can be Go nil (a `let`
whose right-hand side evaluated to nil), hence `Option Obj`. -/

structure EnvData where
  store : List (String × Option Obj)
  outer : Option EnvRef
deriving Repr

/-- The mutable state of a run: the environment heap plus the allocator.
Addresses 0-3 are reserved for the shared singletons. -/
structure World where
  envs : List EnvData
  nextAddr : Addr
deriving Repr

def initialWorld : World := ⟨[⟨[], none⟩], 4⟩

def alloc (w : World) : Addr × World :=
  (w.nextAddr, ⟨w.envs, w.nextAddr + 1⟩)

/-- Assoc-list lookup standing in for the Go map read `e.store[name]`. -/
def storeGet : List (String × Option Obj) → String → Option (Option Obj)
  | [], _ => none
  | (k, v) :: rest, name => if k == name then some v else storeGet rest name

/-- Go map write `e.store[name] = val`: replace an existing binding or add
one. -/
def storeSet : List (String × Option Obj) → String → Option Obj → List (String × Option Obj)
  | [], name, val => [(name, val)]
  | (k, v) :: rest, name, val =>
    if k == name then (k, val) :: rest else (k, v) :: storeSet rest name val

/-- `Environment.Get` (environment.go): look in the store, then walk the
outer chain.  Outer references always point at earlier heap entries, so
`w.envs.length` steps of fuel always suffice. -/
def envGetAux (envs : List EnvData) : Nat → EnvRef → String → Option (Option Obj)
  | 0, _, _ => none
  | fuel + 1, ref, name =>
    match envs[ref]? with
    | none => none
    | some e =>
      match storeGet e.store name with
      | some v => some v
      | none =>
        match e.outer with
        | some out => envGetAux envs fuel out name
        | none => none

def envGet (w : World) (ref : EnvRef) (name : String) : Option (Option Obj) :=
  envGetAux w.envs w.envs.length ref name

/-- Update the environment at index `ref` in the heap. -/
def envsSet : List EnvData → Nat → String → Option Obj → List EnvData
  | [], _, _, _ => []
  | e :: rest, 0, name, val => ⟨storeSet e.store name val, e.outer⟩ :: rest
  | e :: rest, i + 1, name, val => e :: envsSet rest i name val

/-- `Environment.Set`: write into the store of environment `ref`. -/
def envSet (w : World) (ref : EnvRef) (name : String) (val : Option Obj) : World :=
  ⟨envsSet w.envs ref name val, w.nextAddr⟩

/-- `NewEnclosedEnvironment`: append a fresh empty environment whose outer
pointer is `outer`; its reference is the old heap length. -/
def newEnclosedEnvironment (w : World) (outer : EnvRef) : EnvRef × World :=
  (w.envs.length, ⟨w.envs ++ [⟨[], some outer⟩], w.nextAddr⟩)

/-! ## evaluator package: non-recursive helpers (evaluator/evaluator.go) -/

/-- Go runtime aborts (`RunErr.goPanic`) and exhaustion of the embedding's
fuel (`RunErr.fuelOut`, an artifact, never a program behaviour). -/
inductive RunErr where
  | goPanic (msg : String)
  | fuelOut
deriving Repr

/-- The outcome of one `Eval` call: a runtime abort, or a possibly-nil
`object.Object`, together with the world after the call. -/
abbrev EvalOut := Except RunErr (Option Obj) × World

/-- Two's-complement wrap into int64 range, applied where Go's int64
arithmetic can overflow. -/
def wrap64 (n : Int) : Int :=
  (n + 2 ^ 63).emod (2 ^ 64) - 2 ^ 63

/-- `nativeBoolToBooleanObject`. -/
def nativeBoolToBooleanObject (input : Bool) : Obj :=
  if input then TRUE else FALSE

/-- `newError` allocates a fresh `*object.Error`. -/
def newError (msg : String) (w : World) : EvalOut :=
  let (a, w1) := alloc w
  (.ok (some (.errObj a msg)), w1)

/-- `isError` (nil is not an error). -/
def isErrorO : Option Obj → Bool
  | some o => typeOf o == ERROR_OBJ
  | none => false

/-- `isTruthy`: a pointer switch against the shared singletons; any other
value — including Go nil — is truthy. -/
def isTruthy (obj : Option Obj) : Bool :=
  if goEq obj (some NULL) then false
  else if goEq obj (some TRUE) then true
  else if goEq obj (some FALSE) then false
  else true

/-- `evalBangOperatorExpression`: a pointer switch against the singletons;
everything else (nil included) maps to FALSE. -/
def evalBangOperatorExpression (right : Option Obj) : Obj :=
  if goEq right (some TRUE) then FALSE
  else if goEq right (some FALSE) then TRUE
  else if goEq right (some NULL) then TRUE
  else FALSE

/-- `evalMinusPrefixOperatorExpression`; calling `.Type()` on a nil operand
is a nil-pointer dereference. -/
def evalMinusPrefixOperatorExpression (right : Option Obj) (w : World) : EvalOut :=
  match right with
  | none => (.error (.goPanic "runtime error: invalid memory address or nil pointer dereference"), w)
  | some r =>
    if typeOf r != INTEGER_OBJ then
      newError ("unknown operator: -" ++ typeOf r) w
    else
      match r with
      | .integer _ v =>
        let (a, w1) := alloc w
        (.ok (some (.integer a (wrap64 (-v)))), w1)
      | _ => (.error (.goPanic "interface conversion"), w)

/-- `evalPrefixExpression`. -/
def evalPrefixExpression (op : String) (right : Option Obj) (w : World) : EvalOut :=
  if op == "!" then (.ok (some (evalBangOperatorExpression right)), w)
  else if op == "-" then evalMinusPrefixOperatorExpression right w
  else
    match right with
    | none => (.error (.goPanic "runtime error: invalid memory address or nil pointer dereference"), w)
    | some r => newError ("unknown operator: " ++ op ++ typeOf r) w

/-- `evalIntegerInfixExpression`.  Go's `leftVal / rightVal` panics when the
divisor is zero; otherwise `/` truncates toward zero (`Int.tdiv`), wrapping
on the single overflowing case MinInt64 / -1. -/
def evalIntegerInfixExpression (op : String) (left right : Obj) (w : World) : EvalOut :=
  match left, right with
  | .integer _ leftVal, .integer _ rightVal =>
    if op == "+" then
      let (a, w1) := alloc w
      (.ok (some (.integer a (wrap64 (leftVal + rightVal)))), w1)
    else if op == "-" then
      let (a, w1) := alloc w
      (.ok (some (.integer a (wrap64 (leftVal - rightVal)))), w1)
    else if op == "*" then
      let (a, w1) := alloc w
      (.ok (some (.integer a (wrap64 (leftVal * rightVal)))), w1)
    else if op == "/" then
      if rightVal == 0 then
        (.error (.goPanic "runtime error: integer divide by zero"), w)
      else
        let (a, w1) := alloc w
        (.ok (some (.integer a (wrap64 (Int.tdiv leftVal rightVal)))), w1)
    else if op == "<" then (.ok (some (nativeBoolToBooleanObject (leftVal < rightVal))), w)
    else if op == ">" then (.ok (some (nativeBoolToBooleanObject (leftVal > rightVal))), w)
    else if op == "==" then (.ok (some (nativeBoolToBooleanObject (leftVal == rightVal))), w)
    else if op == "!=" then (.ok (some (nativeBoolToBooleanObject (leftVal != rightVal))), w)
    else newError ("unknown operator: " ++ typeOf left ++ " " ++ op ++ " " ++ typeOf right) w
  | _, _ => (.error (.goPanic "interface conversion"), w)

/-- `evalStringInfixExpression`: only `+` (concatenation, a fresh String
object) is supported. -/
def evalStringInfixExpression (op : String) (left right : Obj) (w : World) : EvalOut :=
  if op != "+" then
    newError ("unknown operator: " ++ typeOf left ++ " " ++ op ++ " " ++ typeOf right) w
  else
    match left, right with
    | .strObj _ leftVal, .strObj _ rightVal =>
      let (a, w1) := alloc w
      (.ok (some (.strObj a (leftVal ++ rightVal))), w1)
    | _, _ => (.error (.goPanic "interface conversion"), w)

/-- The cases of `evalInfixExpression`'s switch after the both-integers
case, in source order: `==`, `!=` (raw Go `==` on the interface values,
reference identity), type mismatch, both strings, unknown operator. -/
def evalInfixRest (op : String) (left right : Option Obj) (w : World) : EvalOut :=
  if op == "==" then (.ok (some (nativeBoolToBooleanObject (goEq left right))), w)
  else if op == "!=" then (.ok (some (nativeBoolToBooleanObject (!goEq left right))), w)
  else
    match left, right with
    | some l, some r =>
      if typeOf l != typeOf r then
        newError ("type mismatch: " ++ typeOf l ++ " " ++ op ++ " " ++ typeOf r) w
      else if typeOf l == STRING_OBJ && typeOf r == STRING_OBJ then
        evalStringInfixExpression op l r w
      else
        newError ("unknown operator: " ++ typeOf l ++ " " ++ op ++ " " ++ typeOf r) w
    | _, _ => (.error (.goPanic "runtime error: invalid memory address or nil pointer dereference"), w)

/-- `evalInfixExpression`.  The first switch case reads `left.Type()` (nil
dereference on a nil left operand) and, when that is INTEGER, also
`right.Type()`. -/
def evalInfixExpression (op : String) (left right : Option Obj) (w : World) : EvalOut :=
  match left with
  | none => (.error (.goPanic "runtime error: invalid memory address or nil pointer dereference"), w)
  | some l =>
    if typeOf l == INTEGER_OBJ then
      match right with
      | none => (.error (.goPanic "runtime error: invalid memory address or nil pointer dereference"), w)
      | some r =>
        if typeOf r == INTEGER_OBJ then evalIntegerInfixExpression op l r w
        else evalInfixRest op left right w
    else evalInfixRest op left right w

/-- Bitwise XOR of the low `k` bits, written with division and remainder
only so that it evaluates by kernel reduction (each bit of an XOR is
`(a + b) % 2`). -/
def xorBits : Nat → Nat → Nat → Nat
  | 0, _, _ => 0
  | k + 1, a, b => (a + b) % 2 + 2 * xorBits k (a / 2) (b / 2)

/-- FNV-1a 64-bit over the characters of a string (the source hashes the
bytes; the language is ASCII-only, where the two agree).  `xorBits 64` is
exactly the uint64 XOR of the Go implementation. -/
def fnv64a (s : String) : Nat :=
  s.toList.foldl (fun h c => (xorBits 64 h c.toNat * 1099511628211) % 2 ^ 64) 14695981039346656037

/-- The `Hashable` capability: the three `HashKey()` methods of
object/object.go; `none` for every other object type. -/
def hashKeyOf : Obj → Option HashKey
  | .boolean _ b => some ⟨BOOLEAN_OBJ, if b then 1 else 0⟩
  | .integer _ v => some ⟨INTEGER_OBJ, (v.emod (2 ^ 64)).toNat⟩
  | .strObj _ s => some ⟨STRING_OBJ, fnv64a s⟩
  | _ => none

/-- Go map read `hashObject.Pairs[key]`. -/
def pairsGet : List (HashKey × Obj × Option Obj) → HashKey → Option (Obj × Option Obj)
  | [], _ => none
  | (k, p) :: rest, key => if k = key then some p else pairsGet rest key

/-- Go map write `pairs[hashed] = pair`. -/
def pairsSet : List (HashKey × Obj × Option Obj) → HashKey → Obj × Option Obj → List (HashKey × Obj × Option Obj)
  | [], key, pair => [(key, pair)]
  | (k, p) :: rest, key, pair =>
    if k = key then (k, pair) :: rest else (k, p) :: pairsSet rest key pair

/-- `evalArrayIndexExpression`: out of range (negative or past the last
element) yields the shared NULL, otherwise the stored element. -/
def evalArrayIndexExpression (array index : Obj) (w : World) : EvalOut :=
  match array, index with
  | .arrObj _ elements, .integer _ idx =>
    let max : Int := elements.length - 1
    if idx < 0 || idx > max then (.ok (some NULL), w)
    else (.ok (elements.getD idx.toNat none), w)
  | _, _ => (.error (.goPanic "interface conversion"), w)

/-- `evalHashIndexExpression`: the index must be Hashable (a nil index
fails the capability assertion and then panics rendering its type in the
error message); a missing key yields the shared NULL. -/
def evalHashIndexExpression (hash : Obj) (index : Option Obj) (w : World) : EvalOut :=
  match hash with
  | .hashObj _ pairs =>
    match index with
    | none => (.error (.goPanic "runtime error: invalid memory address or nil pointer dereference"), w)
    | some i =>
      match hashKeyOf i with
      | none => newError ("unusable as hash key: " ++ typeOf i) w
      | some key =>
        match pairsGet pairs key with
        | none => (.ok (some NULL), w)
        | some pair => (.ok pair.2, w)
  | _ => (.error (.goPanic "interface conversion"), w)

/-- `evalIndexExpression`: array-with-integer-index, hash, or an
"index operator not supported" error.  Reading `left.Type()` on nil left
panics; when left is an array, `index.Type()` on a nil index panics. -/
def evalIndexExpression (left index : Option Obj) (w : World) : EvalOut :=
  match left with
  | none => (.error (.goPanic "runtime error: invalid memory address or nil pointer dereference"), w)
  | some l =>
    if typeOf l == ARRAY_OBJ then
      match index with
      | none => (.error (.goPanic "runtime error: invalid memory address or nil pointer dereference"), w)
      | some i =>
        if typeOf i == INTEGER_OBJ then evalArrayIndexExpression l i w
        else if typeOf l == HASH_OBJ then evalHashIndexExpression l index w
        else newError ("index operator not supported: " ++ typeOf l) w
    else if typeOf l == HASH_OBJ then evalHashIndexExpression l index w
    else newError ("index operator not supported: " ++ typeOf l) w

/-- `unwrapReturnValue`. -/
def unwrapReturnValue : Option Obj → Option Obj
  | some (.retVal _ v) => v
  | o => o

/-- The builtins table (the package's single-entry `builtins` map: only
`len`, which handles strings and rejects everything else). -/
def builtinsList : List (String × Obj) := [("len", LEN_BUILTIN)]

def builtins (name : String) : Option Obj :=
  match builtinsList.find? (fun p => p.1 == name) with
  | some p => some p.2
  | none => none

/-- The body of the `len` builtin: exactly one argument; a String yields
its length (Go counts bytes; ASCII-only, so characters agree); anything
else — arrays included — is an error; a nil argument panics rendering its
type. -/
def lenBuiltinFn (args : List (Option Obj)) (w : World) : EvalOut :=
  if args.length != 1 then
    newError ("wrong number of arguments. got=" ++ toString args.length ++ ", want=1") w
  else
    match args.getD 0 none with
    | some (.strObj _ s) =>
      let (a, w1) := alloc w
      (.ok (some (.integer a (s.utf8ByteSize : Int))), w1)
    | some o => newError ("argument to `len` not supported, got " ++ typeOf o) w
    | none => (.error (.goPanic "runtime error: invalid memory address or nil pointer dereference"), w)

/-- Dispatch a `Builtin.Fn` by its tag. -/
def applyBuiltin (tag : BuiltinTag) (args : List (Option Obj)) (w : World) : EvalOut :=
  match tag with
  | .lenB => lenBuiltinFn args w

/-- `evalIdentifier`: the environment chain first, the builtin table as
fallback, otherwise an error. -/
def evalIdentifier (name : String) (env : EnvRef) (w : World) : EvalOut :=
  match envGet w env name with
  | some val => (.ok val, w)
  | none =>
    match builtins name with
    | some b => (.ok (some b), w)
    | none => newError ("identifier not found: " ++ name) w

/-- `extendFunctionEnv`'s binding loop: `args[paramIdx]` is a Go
index-out-of-range panic when the call supplied fewer arguments than the
function has parameters; surplus arguments are silently ignored. -/
def bindParams (w : World) (env : EnvRef) : List String → List (Option Obj) → Except RunErr World
  | [], _ => .ok w
  | _ :: _, [] => .error (.goPanic "runtime error: index out of range")
  | p :: ps, a :: as_ => bindParams (envSet w env p a) env ps as_

/-! ## evaluator package: the recursive core (evaluator/evaluator.go)

`eval` is Go's `Eval` with its single type switch (a nil node falls
through every case and yields nil).  Every recursive call consumes one
unit of fuel; running out is the embedding's `fuelOut`, never a behaviour
of the program.  The `A`-suffixed functions are the source's accumulation
loops (`evalProgram`, `evalBlockStatement`, `evalExpressions`,
`evalHashLiteral`) written as recursion over the remaining list, carrying
the loop state. -/

mutual

def eval : Nat → Option Node → EnvRef → World → EvalOut
  | 0, _, _, w => (.error .fuelOut, w)
  | _ + 1, none, _, w => (.ok none, w)
  | fuel + 1, some node, env, w =>
    match node with
    | .program stmts => evalProgramA fuel stmts env none w
    | .blockStmt stmts => evalBlockA fuel stmts env none w
    | .exprStmt e => eval fuel e env w
    | .returnStmt e =>
      match eval fuel e env w with
      | (.error r, w1) => (.error r, w1)
      | (.ok val, w1) =>
        if isErrorO val then (.ok val, w1)
        else
          let (a, w2) := alloc w1
          (.ok (some (.retVal a val)), w2)
    | .letStmt name e =>
      match eval fuel e env w with
      | (.error r, w1) => (.error r, w1)
      | (.ok val, w1) =>
        if isErrorO val then (.ok val, w1)
        else (.ok none, envSet w1 env name val)
    | .strLit s =>
      let (a, w1) := alloc w
      (.ok (some (.strObj a s)), w1)
    | .intLit v =>
      let (a, w1) := alloc w
      (.ok (some (.integer a v)), w1)
    | .boolLit b => (.ok (some (nativeBoolToBooleanObject b)), w)
    | .prefixExpr op right =>
      match eval fuel right env w with
      | (.error r, w1) => (.error r, w1)
      | (.ok rv, w1) =>
        if isErrorO rv then (.ok rv, w1)
        else evalPrefixExpression op rv w1
    | .infixExpr op left right =>
      match eval fuel left env w with
      | (.error r, w1) => (.error r, w1)
      | (.ok lv, w1) =>
        if isErrorO lv then (.ok lv, w1)
        else
          match eval fuel right env w1 with
          | (.error r, w2) => (.error r, w2)
          | (.ok rv, w2) =>
            if isErrorO rv then (.ok rv, w2)
            else evalInfixExpression op lv rv w2
    | .ifExpr cond cons alt =>
      match eval fuel cond env w with
      | (.error r, w1) => (.error r, w1)
      | (.ok cv, w1) =>
        if isErrorO cv then (.ok cv, w1)
        else if isTruthy cv then eval fuel (some cons) env w1
        else
          match alt with
          | some altNode => eval fuel (some altNode) env w1
          | none => (.ok (some NULL), w1)
    | .identE name => evalIdentifier name env w
    | .fnLit params body =>
      let (a, w1) := alloc w
      (.ok (some (.funObj a params body env)), w1)
    | .callExpr fn args =>
      match eval fuel fn env w with
      | (.error r, w1) => (.error r, w1)
      | (.ok fv, w1) =>
        if isErrorO fv then (.ok fv, w1)
        else
          match evalExpressionsA fuel args env [] w1 with
          | (.error r, w2) => (.error r, w2)
          | (.ok argVals, w2) =>
            if argVals.length == 1 && isErrorO (argVals.getD 0 none) then
              (.ok (argVals.getD 0 none), w2)
            else applyFunction fuel fv argVals w2
    | .arrayLit elems =>
      match evalExpressionsA fuel elems env [] w with
      | (.error r, w1) => (.error r, w1)
      | (.ok els, w1) =>
        if els.length == 1 && isErrorO (els.getD 0 none) then
          (.ok (els.getD 0 none), w1)
        else
          let (a, w2) := alloc w1
          (.ok (some (.arrObj a els)), w2)
    | .hashLit pairs => evalHashPairsA fuel pairs env [] w
    | .indexExpr left idx =>
      match eval fuel left env w with
      | (.error r, w1) => (.error r, w1)
      | (.ok lv, w1) =>
        if isErrorO lv then (.ok lv, w1)
        else
          match eval fuel idx env w1 with
          | (.error r, w2) => (.error r, w2)
          | (.ok iv, w2) =>
            if isErrorO iv then (.ok iv, w2)
            else evalIndexExpression lv iv w2
termination_by structural fuel _ _ _ => fuel

/-- `evalProgram`'s loop: `result` is the running value; a ReturnValue is
unwrapped one level and stops the program, an Error stops it unchanged. -/
def evalProgramA : Nat → List Node → EnvRef → Option Obj → World → EvalOut
  | 0, _, _, _, w => (.error .fuelOut, w)
  | _ + 1, [], _, result, w => (.ok result, w)
  | fuel + 1, s :: rest, env, _, w =>
    match eval fuel (some s) env w with
    | (.error r, w1) => (.error r, w1)
    | (.ok result, w1) =>
      match result with
      | some (.retVal _ v) => (.ok v, w1)
      | some (.errObj a m) => (.ok (some (.errObj a m)), w1)
      | _ => evalProgramA fuel rest env result w1
termination_by structural fuel _ _ _ _ => fuel

/-- `evalBlockStatement`'s loop: a non-nil result whose type is
RETURN_VALUE or ERROR is returned as-is (the marker is not unwrapped). -/
def evalBlockA : Nat → List Node → EnvRef → Option Obj → World → EvalOut
  | 0, _, _, _, w => (.error .fuelOut, w)
  | _ + 1, [], _, result, w => (.ok result, w)
  | fuel + 1, s :: rest, env, _, w =>
    match eval fuel (some s) env w with
    | (.error r, w1) => (.error r, w1)
    | (.ok result, w1) =>
      match result with
      | some o =>
        if typeOf o == RETURN_VALUE_OBJ || typeOf o == ERROR_OBJ then (.ok (some o), w1)
        else evalBlockA fuel rest env (some o) w1
      | none => evalBlockA fuel rest env none w1
termination_by structural fuel _ _ _ _ => fuel

/-- `evalExpressions`: strictly left-to-right; the first Error becomes a
singleton result list. -/
def evalExpressionsA : Nat → List (Option Node) → EnvRef → List (Option Obj) → World →
    Except RunErr (List (Option Obj)) × World
  | 0, _, _, _, w => (.error .fuelOut, w)
  | _ + 1, [], _, acc, w => (.ok acc, w)
  | fuel + 1, e :: es, env, acc, w =>
    match eval fuel e env w with
    | (.error r, w1) => (.error r, w1)
    | (.ok v, w1) =>
      if isErrorO v then (.ok [v], w1)
      else evalExpressionsA fuel es env (acc ++ [v]) w1
termination_by structural fuel _ _ _ _ => fuel

/-- `evalHashLiteral`'s loop (the Go map iteration is modelled in source
order): evaluate the key, check the Hashable capability (a nil key panics
rendering its type), evaluate the value, insert the pair. -/
def evalHashPairsA : Nat → List (Option Node × Option Node) → EnvRef →
    List (HashKey × Obj × Option Obj) → World → EvalOut
  | 0, _, _, _, w => (.error .fuelOut, w)
  | _ + 1, [], _, acc, w =>
    let (a, w1) := alloc w
    (.ok (some (.hashObj a acc)), w1)
  | fuel + 1, (kNode, vNode) :: rest, env, acc, w =>
    match eval fuel kNode env w with
    | (.error r, w1) => (.error r, w1)
    | (.ok key, w1) =>
      if isErrorO key then (.ok key, w1)
      else
        match key with
        | none => (.error (.goPanic "runtime error: invalid memory address or nil pointer dereference"), w1)
        | some kobj =>
          match hashKeyOf kobj with
          | none => newError ("unusable as hash key: " ++ typeOf kobj) w1
          | some hk =>
            match eval fuel vNode env w1 with
            | (.error r, w2) => (.error r, w2)
            | (.ok value, w2) =>
              if isErrorO value then (.ok value, w2)
              else evalHashPairsA fuel rest env (pairsSet acc hk (kobj, value)) w2
termination_by structural fuel _ _ _ _ => fuel

/-- `applyFunction`: a user function gets a fresh enclosed environment with
the arguments bound positionally (panicking if too few were supplied), its
body evaluated there and one ReturnValue layer unwrapped; a builtin runs
its native body; anything else — nil included (a nil callee panics
rendering its type) — is a "not a function" error. -/
def applyFunction : Nat → Option Obj → List (Option Obj) → World → EvalOut
  | 0, _, _, w => (.error .fuelOut, w)
  | fuel + 1, fn, args, w =>
    match fn with
    | some (.funObj _ params body fnEnv) =>
      let (newEnv, w1) := newEnclosedEnvironment w fnEnv
      match bindParams w1 newEnv params args with
      | .error r => (.error r, w1)
      | .ok w2 =>
        match eval fuel (some body) newEnv w2 with
        | (.error r, w3) => (.error r, w3)
        | (.ok evaluated, w3) => (.ok (unwrapReturnValue evaluated), w3)
    | some (.builtinObj _ tag) => applyBuiltin tag args w
    | some other => newError ("not a function: " ++ typeOf other) w
    | none => (.error (.goPanic "runtime error: invalid memory address or nil pointer dereference"), w)
termination_by structural fuel _ _ _ => fuel

end

/-- Run a whole program AST from the REPL's fresh environment, with the
given fuel. -/
def runProgram (fuel : Nat) (stmts : List Node) : EvalOut :=
  eval fuel (some (.program stmts)) 0 initialWorld

/-! ## token package (token/token.go)

Token kinds are strings.  The constants below are the source's set; the
repository's final revision also has the string/bracket/colon kinds its
lexer and parser consume (`token.STRING` is referenced by both), whose
values follow the spec §3 token list.  -/

abbrev TokenType := String

structure Token where
  typ : TokenType
  literal : String
deriving Repr, DecidableEq

namespace TK

def ILLEGAL : TokenType := "ILLEGAL"

def EOF : TokenType := "EOF"

def IDENT : TokenType := "IDENT"

def INT : TokenType := "INT"

def ASSIGN : TokenType := "="

def PLUS : TokenType := "+"

def MINUS : TokenType := "-"

def BANG : TokenType := "!"

def ASTERISK : TokenType := "*"

def SLASH : TokenType := "/"

def LT : TokenType := "<"

def GT : TokenType := ">"

def EQ : TokenType := "=="

def NOT_EQ : TokenType := "!="

def COMMA : TokenType := ","

def SEMICOLON : TokenType := ";"

def LPAREN : TokenType := "("

def RPAREN : TokenType := ")"

def LBRACE : TokenType := "\x7b"

def RBRACE : TokenType := "\x7d"

def FUNCTION : TokenType := "FUNCTION"

def LET : TokenType := "LET"

def TRUE : TokenType := "TRUE"

def FALSE : TokenType := "FALSE"

def IF : TokenType := "IF"

def ELSE : TokenType := "ELSE"

def RETURN : TokenType := "RETURN"

def STRING : TokenType := "STRING"

/-- Modelled from the spec: the `[` token kind (spec §3 operator set);
missing from the checked-in token.go revision. -/
def LBRACKET : TokenType := "["

/-- Modelled from the spec: the `]` token kind. -/
def RBRACKET : TokenType := "]"

/-- Modelled from the spec: the `:` token kind. -/
def COLON : TokenType := ":"

end TK

/-- The keywords table and `LookupIdent` of token/token.go. -/
def lookupIdent (ident : String) : TokenType :=
  if ident == "fn" then TK.FUNCTION
  else if ident == "let" then TK.LET
  else if ident == "true" then TK.TRUE
  else if ident == "false" then TK.FALSE
  else if ident == "if" then TK.IF
  else if ident == "else" then TK.ELSE
  else if ident == "return" then TK.RETURN
  else TK.IDENT

/-! ## lexer package (lexer/lexer.go)

The input is the byte string as a `List Char` (the language is ASCII-only
per the source comments); the NUL sentinel `readChar` uses for
end-of-input is `'\x00'`.  Loops are given `input.length + 1` fuel, which
always suffices because every iteration advances `readPosition` and a loop
only continues while the current character was actually read from the
input. -/

structure Lexer where
  input : List Char
  position : Nat
  readPosition : Nat
  ch : Char
deriving Repr

/-- `readChar`. -/
def readCharL (l : Lexer) : Lexer :=
  if l.readPosition ≥ l.input.length then
    ⟨l.input, l.readPosition, l.readPosition + 1, '\x00'⟩
  else
    ⟨l.input, l.readPosition, l.readPosition + 1, l.input.getD l.readPosition '\x00'⟩

/-- `New`. -/
def newLexer (input : List Char) : Lexer :=
  readCharL ⟨input, 0, 0, '\x00'⟩

/-- `peekChar`. -/
def peekChar (l : Lexer) : Char :=
  if l.readPosition ≥ l.input.length then '\x00'
  else l.input.getD l.readPosition '\x00'

/-- `isLetter`. -/
def isLetter (ch : Char) : Bool :=
  ('a' ≤ ch && ch ≤ 'z') || ('A' ≤ ch && ch ≤ 'Z') || ch == '_'

/-- `isDigit`. -/
def isDigit (ch : Char) : Bool :=
  '0' ≤ ch && ch ≤ '9'

/-- `skipWhitespace`'s loop. -/
def skipWhitespaceAux : Nat → Lexer → Lexer
  | 0, l => l
  | fuel + 1, l =>
    if l.ch == ' ' || l.ch == '\t' || l.ch == '\n' || l.ch == '\r' then
      skipWhitespaceAux fuel (readCharL l)
    else l

def skipWhitespace (l : Lexer) : Lexer :=
  skipWhitespaceAux (l.input.length + 1) l

/-- The slice `l.input[a:b]` as a string. -/
def sliceStr (input : List Char) (a b : Nat) : String :=
  String.mk ((input.drop a).take (b - a))

/-- `readIdentifier`'s loop. -/
def readIdentifierAux : Nat → Lexer → Lexer
  | 0, l => l
  | fuel + 1, l => if isLetter l.ch then readIdentifierAux fuel (readCharL l) else l

def readIdentifier (l : Lexer) : String × Lexer :=
  let l1 := readIdentifierAux (l.input.length + 1) l
  (sliceStr l1.input l.position l1.position, l1)

/-- `readNumber`'s loop. -/
def readNumberAux : Nat → Lexer → Lexer
  | 0, l => l
  | fuel + 1, l => if isDigit l.ch then readNumberAux fuel (readCharL l) else l

def readNumber (l : Lexer) : String × Lexer :=
  let l1 := readNumberAux (l.input.length + 1) l
  (sliceStr l1.input l.position l1.position, l1)

/-- `readString`'s loop: advance until a closing double quote **or end of
input** — an unterminated string simply stops at end-of-input. -/
def readStringAux : Nat → Lexer → Lexer
  | 0, l => l
  | fuel + 1, l =>
    let l1 := readCharL l
    if l1.ch == '"' || l1.ch == '\x00' then l1 else readStringAux fuel l1

/-- `readString`: everything between the opening quote and the closing
quote or end-of-input, with no escape processing. -/
def readStringL (l : Lexer) : String × Lexer :=
  let pos := l.position + 1
  let l1 := readStringAux (l.input.length + 1) l
  (sliceStr l1.input pos l1.position, l1)

/-- `NextToken`.  The `[`, `]` and `:` cases are Modelled from the spec
(§3's operator/punctuation set; the checked-in lexer revision predates
them); every other case is the source's switch. -/
def nextTokenL (l0 : Lexer) : Token × Lexer :=
  let l := skipWhitespace l0
  if l.ch == '"' then
    let (s, l1) := readStringL l
    (⟨TK.STRING, s⟩, readCharL l1)
  else if l.ch == '=' then
    if peekChar l == '=' then (⟨TK.EQ, "=="⟩, readCharL (readCharL l))
    else (⟨TK.ASSIGN, "="⟩, readCharL l)
  else if l.ch == '+' then (⟨TK.PLUS, "+"⟩, readCharL l)
  else if l.ch == '-' then (⟨TK.MINUS, "-"⟩, readCharL l)
  else if l.ch == '!' then
    if peekChar l == '=' then (⟨TK.NOT_EQ, "!="⟩, readCharL (readCharL l))
    else (⟨TK.BANG, "!"⟩, readCharL l)
  else if l.ch == '/' then (⟨TK.SLASH, "/"⟩, readCharL l)
  else if l.ch == '*' then (⟨TK.ASTERISK, "*"⟩, readCharL l)
  else if l.ch == '<' then (⟨TK.LT, "<"⟩, readCharL l)
  else if l.ch == '>' then (⟨TK.GT, ">"⟩, readCharL l)
  else if l.ch == ';' then (⟨TK.SEMICOLON, ";"⟩, readCharL l)
  else if l.ch == ',' then (⟨TK.COMMA, ","⟩, readCharL l)
  else if l.ch == '\x7b' then (⟨TK.LBRACE, "\x7b"⟩, readCharL l)
  else if l.ch == '\x7d' then (⟨TK.RBRACE, "\x7d"⟩, readCharL l)
  else if l.ch == '(' then (⟨TK.LPAREN, "("⟩, readCharL l)
  else if l.ch == ')' then (⟨TK.RPAREN, ")"⟩, readCharL l)
  else if l.ch == '[' then (⟨TK.LBRACKET, "["⟩, readCharL l)
  else if l.ch == ']' then (⟨TK.RBRACKET, "]"⟩, readCharL l)
  else if l.ch == ':' then (⟨TK.COLON, ":"⟩, readCharL l)
  else if l.ch == '\x00' then (⟨TK.EOF, ""⟩, readCharL l)
  else if isLetter l.ch then
    let (s, l1) := readIdentifier l
    (⟨lookupIdent s, s⟩, l1)
  else if isDigit l.ch then
    let (s, l1) := readNumber l
    (⟨TK.INT, s⟩, l1)
  else (⟨TK.ILLEGAL, String.mk [l.ch]⟩, readCharL l)

/-- Drive the lexer to end-of-input, collecting the token stream the
parser will consume (EOF included). -/
def lexTokensAux : Nat → Lexer → List Token
  | 0, _ => []
  | fuel + 1, l =>
    let (t, l1) := nextTokenL l
    if t.typ == TK.EOF then [t] else t :: lexTokensAux fuel l1

def lexSource (input : String) : List Token :=
  lexTokensAux (input.length + 2) (newLexer input.toList)

/-! ## parser package (parser/parser.go)

A Pratt parser over the token stream.  The parser state carries the
unread tokens (the Go parser pulls them from the lexer on demand; past
end-of-stream `NextToken` keeps yielding EOF), the current and peek
tokens, and the growing diagnostics list.  Parse functions return
`Option Node` — `none` is Go's nil node.  The array/hash/index pieces,
absent from the checked-in parser revision but consumed by the evaluator,
are Modelled from the spec (§4.2) and marked as such.  Recursion is paid
with fuel; the entry point supplies more than any input can use. -/

def EOF_TOKEN : Token := ⟨TK.EOF, ""⟩

/-- The Go zero value `token.Token{}`. -/
def ZERO_TOKEN : Token := ⟨"", ""⟩

structure ParserS where
  rest : List Token
  curToken : Token
  peekToken : Token
  errors : List String
deriving Repr

/-- `nextToken` (parser): shift, pulling the next lexer token (EOF forever
once the stream is exhausted). -/
def nextTokenP (p : ParserS) : ParserS :=
  ⟨p.rest.tail, p.peekToken, p.rest.headD EOF_TOKEN, p.errors⟩

/-- `New`: read two tokens to prime curToken and peekToken. -/
def newParser (tokens : List Token) : ParserS :=
  nextTokenP (nextTokenP ⟨tokens, ZERO_TOKEN, ZERO_TOKEN, []⟩)

def curTokenIs (p : ParserS) (t : TokenType) : Bool := p.curToken.typ == t

def peekTokenIs (p : ParserS) (t : TokenType) : Bool := p.peekToken.typ == t

/-- `peekError`. -/
def peekError (t : TokenType) (p : ParserS) : ParserS :=
  { p with errors := p.errors ++ ["expected next token to be " ++ t ++ ", got " ++ p.peekToken.typ ++ " instead"] }

/-- `expectPeek`. -/
def expectPeek (t : TokenType) (p : ParserS) : Bool × ParserS :=
  if peekTokenIs p t then (true, nextTokenP p) else (false, peekError t p)

/-- `noPrefixParseFnError`. -/
def noPrefixParseFnError (t : TokenType) (p : ParserS) : ParserS :=
  { p with errors := p.errors ++ ["no prefix parse function for " ++ t ++ " found"] }

/-! Operator precedences (the `iota` block and `precedences` table).  The
index level is Modelled from the spec (§4.2: call/index bind tightest). -/

def LOWEST : Nat := 1

def EQUALS : Nat := 2

def LESSGREATER : Nat := 3

def SUM : Nat := 4

def PRODUCT : Nat := 5

def PREFIX_PREC : Nat := 6

def CALL_PREC : Nat := 7

def INDEX_PREC : Nat := 8

def precedenceOf (t : TokenType) : Nat :=
  if t == TK.EQ then EQUALS
  else if t == TK.NOT_EQ then EQUALS
  else if t == TK.LT then LESSGREATER
  else if t == TK.GT then LESSGREATER
  else if t == TK.PLUS then SUM
  else if t == TK.MINUS then SUM
  else if t == TK.SLASH then PRODUCT
  else if t == TK.ASTERISK then PRODUCT
  else if t == TK.LPAREN then CALL_PREC
  else if t == TK.LBRACKET then INDEX_PREC
  else LOWEST

def peekPrecedence (p : ParserS) : Nat := precedenceOf p.peekToken.typ

def curPrecedence (p : ParserS) : Nat := precedenceOf p.curToken.typ

/-- Go's `strconv.ParseInt(s, 0, 64)` on a lexer digit run: base 0 reads a
leading `0` as octal; out-of-range 64-bit values and invalid octal digits
fail. -/
def goParseInt (s : String) : Option Int :=
  let cs := s.toList
  match cs with
  | [] => none
  | '0' :: [] => some 0
  | '0' :: rest =>
    if rest.all (fun c => '0' ≤ c && c ≤ '7') then
      let v := rest.foldl (fun a c => a * 8 + (c.toNat - '0'.toNat)) 0
      if v ≤ 2 ^ 63 - 1 then some (v : Int) else none
    else none
  | _ =>
    if cs.all (fun c => '0' ≤ c && c ≤ '9') then
      let v := cs.foldl (fun a c => a * 10 + (c.toNat - '0'.toNat)) 0
      if v ≤ 2 ^ 63 - 1 then some (v : Int) else none
    else none

mutual

/-- `ParseProgram`'s loop: parse statements until EOF, keeping the non-nil
ones. -/
def parseProgramAux : Nat → ParserS → List Node → List Node × ParserS
  | 0, p, acc => (acc, p)
  | fuel + 1, p, acc =>
    if curTokenIs p TK.EOF then (acc, p)
    else
      let (stmt, p1) := parseStatement fuel p
      let acc1 := match stmt with
        | some s => acc ++ [s]
        | none => acc
      parseProgramAux fuel (nextTokenP p1) acc1

/-- `parseStatement`: dispatch on the current token kind. -/
def parseStatement : Nat → ParserS → Option Node × ParserS
  | 0, p => (none, p)
  | fuel + 1, p =>
    if curTokenIs p TK.LET then parseLetStatement fuel p
    else if curTokenIs p TK.RETURN then parseReturnStatement fuel p
    else parseExpressionStatement fuel p

/-- `parseLetStatement`. -/
def parseLetStatement : Nat → ParserS → Option Node × ParserS
  | 0, p => (none, p)
  | fuel + 1, p =>
    match expectPeek TK.IDENT p with
    | (false, p1) => (none, p1)
    | (true, p1) =>
      let name := p1.curToken.literal
      match expectPeek TK.ASSIGN p1 with
      | (false, p2) => (none, p2)
      | (true, p2) =>
        let p3 := nextTokenP p2
        let (value, p4) := parseExpression fuel LOWEST p3
        let p5 := if peekTokenIs p4 TK.SEMICOLON then nextTokenP p4 else p4
        (some (.letStmt name value), p5)

/-- `parseReturnStatement`: advances past `return` and parses an
expression (there is no empty-return path: the expression parser runs on
whatever follows). -/
def parseReturnStatement : Nat → ParserS → Option Node × ParserS
  | 0, p => (none, p)
  | fuel + 1, p =>
    let p1 := nextTokenP p
    let (value, p2) := parseExpression fuel LOWEST p1
    let p3 := if peekTokenIs p2 TK.SEMICOLON then nextTokenP p2 else p2
    (some (.returnStmt value), p3)

/-- `parseExpressionStatement`: an expression with an optional trailing
semicolon. -/
def parseExpressionStatement : Nat → ParserS → Option Node × ParserS
  | 0, p => (none, p)
  | fuel + 1, p =>
    let (e, p1) := parseExpression fuel LOWEST p
    let p2 := if peekTokenIs p1 TK.SEMICOLON then nextTokenP p1 else p1
    (some (.exprStmt e), p2)

/-- `parseExpression`: the registered prefix rule for the current token
(recording a diagnostic and yielding nil when there is none), then the
infix folding loop. -/
def parseExpression : Nat → Nat → ParserS → Option Node × ParserS
  | 0, _, p => (none, p)
  | fuel + 1, precedence, p =>
    match parsePrefixDispatch fuel p with
    | (none, p1) => (none, p1)
    | (some left, p1) => parseInfixLoop fuel precedence (some left) p1

/-- The `prefixParseFns` table: dispatch on the current token kind; an
unregistered kind records "no prefix parse function".  The LBRACKET and
LBRACE rules are Modelled from the spec (§4.2 array/hash literals). -/
def parsePrefixDispatch : Nat → ParserS → Option Node × ParserS
  | 0, p => (none, p)
  | fuel + 1, p =>
    if curTokenIs p TK.IDENT then (some (.identE p.curToken.literal), p)
    else if curTokenIs p TK.INT then
      match goParseInt p.curToken.literal with
      | some v => (some (.intLit v), p)
      | none =>
        (none, { p with errors := p.errors ++ ["could not parse " ++ "\"" ++ p.curToken.literal ++ "\"" ++ " as integer"] })
    else if curTokenIs p TK.BANG || curTokenIs p TK.MINUS then parsePrefixExpr fuel p
    else if curTokenIs p TK.TRUE || curTokenIs p TK.FALSE then
      (some (.boolLit (curTokenIs p TK.TRUE)), p)
    else if curTokenIs p TK.LPAREN then parseGroupedExpression fuel p
    else if curTokenIs p TK.IF then parseIfExpression fuel p
    else if curTokenIs p TK.FUNCTION then parseFunctionLiteral fuel p
    else if curTokenIs p TK.STRING then (some (.strLit p.curToken.literal), p)
    else if curTokenIs p TK.LBRACKET then parseArrayLiteral fuel p
    else if curTokenIs p TK.LBRACE then parseHashLiteral fuel p
    else (none, noPrefixParseFnError p.curToken.typ p)

/-- `parseExpression`'s folding loop: while the next token is not `;` and
binds tighter than the current threshold, consume it with its infix rule
(`(` is a call, `[` — Modelled from the spec — an index, the binary
operators build infix nodes); an unregistered token stops the loop. -/
def parseInfixLoop : Nat → Nat → Option Node → ParserS → Option Node × ParserS
  | 0, _, left, p => (left, p)
  | fuel + 1, precedence, left, p =>
    if !peekTokenIs p TK.SEMICOLON && precedence < peekPrecedence p then
      let t := p.peekToken.typ
      if t == TK.PLUS || t == TK.MINUS || t == TK.SLASH || t == TK.ASTERISK ||
         t == TK.EQ || t == TK.NOT_EQ || t == TK.LT || t == TK.GT then
        let (left1, p1) := parseInfixExpr fuel left (nextTokenP p)
        parseInfixLoop fuel precedence left1 p1
      else if t == TK.LPAREN then
        let (left1, p1) := parseCallExpr fuel left (nextTokenP p)
        parseInfixLoop fuel precedence left1 p1
      else if t == TK.LBRACKET then
        let (left1, p1) := parseIndexExpr fuel left (nextTokenP p)
        parseInfixLoop fuel precedence left1 p1
      else (left, p)
    else (left, p)

/-- `parsePrefixExpression`. -/
def parsePrefixExpr : Nat → ParserS → Option Node × ParserS
  | 0, p => (none, p)
  | fuel + 1, p =>
    let op := p.curToken.literal
    let p1 := nextTokenP p
    let (right, p2) := parseExpression fuel PREFIX_PREC p1
    (some (.prefixExpr op right), p2)

/-- `parseInfixExpression`. -/
def parseInfixExpr : Nat → Option Node → ParserS → Option Node × ParserS
  | 0, left, p => (left, p)
  | fuel + 1, left, p =>
    let op := p.curToken.literal
    let precedence := curPrecedence p
    let p1 := nextTokenP p
    let (right, p2) := parseExpression fuel precedence p1
    (some (.infixExpr op left right), p2)

/-- `parseGroupedExpression`. -/
def parseGroupedExpression : Nat → ParserS → Option Node × ParserS
  | 0, p => (none, p)
  | fuel + 1, p =>
    let p1 := nextTokenP p
    let (e, p2) := parseExpression fuel LOWEST p1
    match expectPeek TK.RPAREN p2 with
    | (false, p3) => (none, p3)
    | (true, p3) => (e, p3)

/-- `parseIfExpression`. -/
def parseIfExpression : Nat → ParserS → Option Node × ParserS
  | 0, p => (none, p)
  | fuel + 1, p =>
    match expectPeek TK.LPAREN p with
    | (false, p1) => (none, p1)
    | (true, p1) =>
      let p2 := nextTokenP p1
      let (cond, p3) := parseExpression fuel LOWEST p2
      match expectPeek TK.RPAREN p3 with
      | (false, p4) => (none, p4)
      | (true, p4) =>
        match expectPeek TK.LBRACE p4 with
        | (false, p5) => (none, p5)
        | (true, p5) =>
          let (cons, p6) := parseBlockStatement fuel p5
          if peekTokenIs p6 TK.ELSE then
            let p7 := nextTokenP p6
            match expectPeek TK.LBRACE p7 with
            | (false, p8) => (none, p8)
            | (true, p8) =>
              let (alt, p9) := parseBlockStatement fuel p8
              (some (.ifExpr cond cons (some alt)), p9)
          else (some (.ifExpr cond cons none), p6)

/-- `parseBlockStatement`: statements until `}` or EOF; always yields a
block node. -/
def parseBlockStatement : Nat → ParserS → Node × ParserS
  | 0, p => (.blockStmt [], p)
  | fuel + 1, p => parseBlockAux fuel (nextTokenP p) []

def parseBlockAux : Nat → ParserS → List Node → Node × ParserS
  | 0, p, acc => (.blockStmt acc, p)
  | fuel + 1, p, acc =>
    if !curTokenIs p TK.RBRACE && !curTokenIs p TK.EOF then
      let (stmt, p1) := parseStatement fuel p
      let acc1 := match stmt with
        | some s => acc ++ [s]
        | none => acc
      parseBlockAux fuel (nextTokenP p1) acc1
    else (.blockStmt acc, p)

/-- `parseFunctionLiteral`.  A failed parameter list leaves the Go slice
nil, which binds like an empty one. -/
def parseFunctionLiteral : Nat → ParserS → Option Node × ParserS
  | 0, p => (none, p)
  | fuel + 1, p =>
    match expectPeek TK.LPAREN p with
    | (false, p1) => (none, p1)
    | (true, p1) =>
      let (params, p2) := parseFunctionParameters fuel p1
      match expectPeek TK.LBRACE p2 with
      | (false, p3) => (none, p3)
      | (true, p3) =>
        let (body, p4) := parseBlockStatement fuel p3
        (some (.fnLit params body), p4)

/-- `parseFunctionParameters`. -/
def parseFunctionParameters : Nat → ParserS → List String × ParserS
  | 0, p => ([], p)
  | fuel + 1, p =>
    if peekTokenIs p TK.RPAREN then ([], nextTokenP p)
    else
      let p1 := nextTokenP p
      parseFnParamsAux fuel p1 [p1.curToken.literal]

def parseFnParamsAux : Nat → ParserS → List String → List String × ParserS
  | 0, p, acc => (acc, p)
  | fuel + 1, p, acc =>
    if peekTokenIs p TK.COMMA then
      let p1 := nextTokenP (nextTokenP p)
      parseFnParamsAux fuel p1 (acc ++ [p1.curToken.literal])
    else
      match expectPeek TK.RPAREN p with
      | (false, p1) => ([], p1)
      | (true, p1) => (acc, p1)

/-- `parseCallExpression` / `parseCallArguments`.  A failed argument list
leaves the Go slice nil, which evaluates like an empty one. -/
def parseCallExpr : Nat → Option Node → ParserS → Option Node × ParserS
  | 0, left, p => (left, p)
  | fuel + 1, fn, p =>
    let (args, p1) := parseExpressionList fuel TK.RPAREN p
    (some (.callExpr fn args), p1)

/-- The comma-separated expression list of `parseCallArguments` (and,
Modelled from the spec §4.2, of array literals), terminated by `endTok`. -/
def parseExpressionList : Nat → TokenType → ParserS → List (Option Node) × ParserS
  | 0, _, p => ([], p)
  | fuel + 1, endTok, p =>
    if peekTokenIs p endTok then ([], nextTokenP p)
    else
      let p1 := nextTokenP p
      let (e, p2) := parseExpression fuel LOWEST p1
      parseExprListAux fuel endTok p2 [e]

def parseExprListAux : Nat → TokenType → ParserS → List (Option Node) → List (Option Node) × ParserS
  | 0, _, p, acc => (acc, p)
  | fuel + 1, endTok, p, acc =>
    if peekTokenIs p TK.COMMA then
      let p1 := nextTokenP (nextTokenP p)
      let (e, p2) := parseExpression fuel LOWEST p1
      parseExprListAux fuel endTok p2 (acc ++ [e])
    else
      match expectPeek endTok p with
      | (false, p1) => ([], p1)
      | (true, p1) => (acc, p1)

/-- Modelled from the spec: §4.2 "Array ... literals are prefix rules
triggered by `[`", parsing a comma-separated list closed by `]`; the
parser revision under src predates arrays. -/
def parseArrayLiteral : Nat → ParserS → Option Node × ParserS
  | 0, p => (none, p)
  | fuel + 1, p =>
    let (elems, p1) := parseExpressionList fuel TK.RBRACKET p
    (some (.arrayLit elems), p1)

/-- Modelled from the spec: §4.2 hash literals — `key-expression :
value-expression` pairs between braces, comma separated; missing from the
checked-in parser revision. -/
def parseHashLiteral : Nat → ParserS → Option Node × ParserS
  | 0, p => (none, p)
  | fuel + 1, p => parseHashPairsAux fuel p []

def parseHashPairsAux : Nat → ParserS → List (Option Node × Option Node) →
    Option Node × ParserS
  | 0, p, _ => (none, p)
  | fuel + 1, p, acc =>
    if !peekTokenIs p TK.RBRACE then
      let p1 := nextTokenP p
      let (key, p2) := parseExpression fuel LOWEST p1
      match expectPeek TK.COLON p2 with
      | (false, p3) => (none, p3)
      | (true, p3) =>
        let p4 := nextTokenP p3
        let (value, p5) := parseExpression fuel LOWEST p4
        let acc1 := acc ++ [(key, value)]
        if !peekTokenIs p5 TK.RBRACE then
          match expectPeek TK.COMMA p5 with
          | (false, p6) => (none, p6)
          | (true, p6) => parseHashPairsAux fuel p6 acc1
        else parseHashPairsAux fuel p5 acc1
    else
      match expectPeek TK.RBRACE p with
      | (false, p1) => (none, p1)
      | (true, p1) => (some (.hashLit acc), p1)

/-- Modelled from the spec: §4.2 "Call/index are infix operators triggered
by encountering `(`/`[` immediately after an already-parsed expression";
the index rule parses one expression and expects `]`. -/
def parseIndexExpr : Nat → Option Node → ParserS → Option Node × ParserS
  | 0, left, p => (left, p)
  | fuel + 1, left, p =>
    let p1 := nextTokenP p
    let (idx, p2) := parseExpression fuel LOWEST p1
    match expectPeek TK.RBRACKET p2 with
    | (false, p3) => (none, p3)
    | (true, p3) => (some (.indexExpr left idx), p3)

end

/-- Lex and parse a source string: the program statements and the
diagnostics list. -/
def parseSource (input : String) : List Node × List String :=
  let toks := lexSource input
  let p := newParser toks
  let (stmts, p1) := parseProgramAux ((toks.length + 8) * (toks.length + 8)) p []
  (stmts, p1.errors)

/-- The REPL's pipeline on one line: parse, and evaluate only when there
are no diagnostics. -/
def runSource (input : String) (fuel : Nat) : List String × Except RunErr (Option Obj) :=
  let pr := parseSource input
  if pr.2.length != 0 then (pr.2, .ok none)
  else (pr.2, (runProgram fuel pr.1).1)

/-! ## Statement-support definitions

Predicates and program families the theorems below quantify over. -/

/-! An object is canonical (`okObj`) when every Boolean inside it is one of
the two shared singletons and every Null is the shared NULL — the property
that makes identity comparison of booleans and nulls value-correct. -/

mutual

def okObj : Obj → Bool
  | .boolean a v => (v == true && a == 1) || (v == false && a == 2)
  | .nullObj a => a == 0
  | .retVal _ v => okOpt v
  | .arrObj _ els => okList els
  | .hashObj _ ps => okPairs ps
  | .integer _ _ => true
  | .strObj _ _ => true
  | .errObj _ _ => true
  | .funObj _ _ _ _ => true
  | .builtinObj _ _ => true

def okOpt : Option Obj → Bool
  | none => true
  | some o => okObj o

def okList : List (Option Obj) → Bool
  | [] => true
  | o :: rest => okOpt o && okList rest

def okPairs : List (HashKey × Obj × Option Obj) → Bool
  | [] => true
  | (_, k, v) :: rest => okObj k && okOpt v && okPairs rest

end

def okStore : List (String × Option Obj) → Bool
  | [] => true
  | (_, v) :: rest => okOpt v && okStore rest

def okEnvs : List EnvData → Bool
  | [] => true
  | e :: rest => okStore e.store && okEnvs rest

/-- Every value reachable from the environment heap is canonical. -/
def okW (w : World) : Bool := okEnvs w.envs

/-- `evalProgram`'s loop keeps iterating exactly on results that are
neither a ReturnValue marker nor an Error (nil included). -/
def notEarlyExit : Option Obj → Bool
  | some (.retVal _ _) => false
  | some (.errObj _ _) => false
  | _ => true

/-- A statement list runs to completion: every statement evaluates without
a host abort and with a result that is neither a ReturnValue marker nor an
Error, ending in the given world with the given fuel left. -/
inductive RunsThrough (env : EnvRef) : Nat → List Node → World → Nat → World → Prop where
  | nil {fuel w} : RunsThrough env fuel [] w fuel w
  | cons {fuel s rest w r w1 fuel1 w2} :
      eval fuel (some s) env w = (.ok r, w1) →
      notEarlyExit r = true →
      RunsThrough env fuel rest w1 fuel1 w2 →
      RunsThrough env (fuel + 1) (s :: rest) w fuel1 w2

/-- `return 7;` buried under `n` layers of `if (true) { ... }`. -/
def nestedIf : Nat → Node
  | 0 => .returnStmt (some (.intLit 7))
  | n + 1 => .exprStmt (some (.ifExpr (some (.boolLit true)) (.blockStmt [nestedIf n]) none))

/-- The counter closure of spec §8: `let newC = fn() { let count = 0;
fn() { let count = count + 1; count; }; }; let counter = newC();`. -/
def counterSetup : List Node :=
  [.letStmt "newC" (some (.fnLit [] (.blockStmt [
      .letStmt "count" (some (.intLit 0)),
      .exprStmt (some (.fnLit [] (.blockStmt [
        .letStmt "count" (some (.infixExpr "+" (some (.identE "count")) (some (.intLit 1)))),
        .exprStmt (some (.identE "count"))])))]))),
   .letStmt "counter" (some (.callExpr (some (.identE "newC")) []))]

/-- `counter(); counter();` — the program whose final result is the second
invocation's value. -/
def counterTwice : List Node :=
  counterSetup ++
  [.exprStmt (some (.callExpr (some (.identE "counter")) [])),
   .exprStmt (some (.callExpr (some (.identE "counter")) []))]

/-- `counter() == counter()` — do the two invocations agree? -/
def counterEqual : List Node :=
  counterSetup ++
  [.exprStmt (some (.infixExpr "=="
      (some (.callExpr (some (.identE "counter")) []))
      (some (.callExpr (some (.identE "counter")) []))))]

/-- `let f = fn() { x }; let x = 5; f();` — a closure observing a binding
made in its defining scope after capture. -/
def captureByRefProgram : List Node :=
  [.letStmt "f" (some (.fnLit [] (.blockStmt [.exprStmt (some (.identE "x"))]))),
   .letStmt "x" (some (.intLit 5)),
   .exprStmt (some (.callExpr (some (.identE "f")) []))]

/-- The AST of `{"a":1,"b":2}["a"]`. -/
def hashAccessAst : List Node :=
  [.exprStmt (some (.indexExpr
    (some (.hashLit [(some (.strLit "a"), some (.intLit 1)),
                     (some (.strLit "b"), some (.intLit 2))]))
    (some (.strLit "a"))))]

/-- The AST of `[1,2,3][5]`. -/
def arrayAccessAst : List Node :=
  [.exprStmt (some (.indexExpr
    (some (.arrayLit [some (.intLit 1), some (.intLit 2), some (.intLit 3)]))
    (some (.intLit 5))))]

/-- `5 / 0;` as a program. -/
def divByZeroProgram : List Node :=
  [.exprStmt (some (.infixExpr "/" (some (.intLit 5)) (some (.intLit 0))))]

/-- `fn(x) { x; }();` — a one-parameter function applied to no arguments. -/
def underApplyProgram : List Node :=
  [.exprStmt (some (.callExpr
      (some (.fnLit ["x"] (.blockStmt [.exprStmt (some (.identE "x"))]))) []))]

/-- `return if (true) { return 2; };` — a return whose value expression
itself evaluates to a ReturnValue marker. -/
def doubleReturnProgram : List Node :=
  [.returnStmt (some (.ifExpr (some (.boolLit true))
      (.blockStmt [.returnStmt (some (.intLit 2))]) none))]

/-- `"a" == "a"` — two String objects with equal contents built by two
separate evaluations of a string literal. -/
def strEqFresh : List Node :=
  [.exprStmt (some (.infixExpr "==" (some (.strLit "a")) (some (.strLit "a"))))]

/-- `let s = "a"; s == s;` — the same String object on both sides. -/
def strEqSame : List Node :=
  [.letStmt "s" (some (.strLit "a")),
   .exprStmt (some (.infixExpr "==" (some (.identE "s")) (some (.identE "s"))))]

/-- The canonical-singleton invariant for one evaluation output: the
environment heap stays canonical and a normal result is canonical
(`okOpt`: every Boolean inside is one of the two shared singletons,
every Null is the shared NULL). -/
def OkOut (out : EvalOut) : Prop :=
  okW out.2 = true ∧ ∀ v, out.1 = .ok v → okOpt v = true

/-- The six-component invariant bundle at a given fuel: every entry point
of the mutual evaluator preserves canonicity of the environment heap and
produces only canonical values (given canonical accumulators). -/
def EvalInvAt (fuel : Nat) : Prop :=
  (∀ n env w, okW w = true → OkOut (eval fuel n env w)) ∧
  (∀ ss env prev w, okW w = true → okOpt prev = true →
    OkOut (evalProgramA fuel ss env prev w)) ∧
  (∀ ss env prev w, okW w = true → okOpt prev = true →
    OkOut (evalBlockA fuel ss env prev w)) ∧
  (∀ es env acc w, okW w = true → okList acc = true →
    okW (evalExpressionsA fuel es env acc w).2 = true ∧
    ∀ vs, (evalExpressionsA fuel es env acc w).1 = .ok vs → okList vs = true) ∧
  (∀ ps env acc w, okW w = true → okPairs acc = true →
    OkOut (evalHashPairsA fuel ps env acc w)) ∧
  (∀ fn args w, okW w = true → okOpt fn = true → okList args = true →
    OkOut (applyFunction fuel fn args w))

/-! ## C1 -/

/-- C1: the claim says every run-time failure is returned as a first-class
Error and evaluation never aborts at host level, naming `5 / 0` and
under-application.  Both named inputs abort with a Go runtime panic
instead: the division case hits Go's integer-divide-by-zero panic in
`evalIntegerInfixExpression`, and `extendFunctionEnv` indexes
`args[paramIdx]` out of range. -/
theorem c1_counterexample :
    (runProgram 9 divByZeroProgram).1 =
      .error (.goPanic "runtime error: integer divide by zero") ∧
    (runProgram 9 underApplyProgram).1 =
      .error (.goPanic "runtime error: index out of range") :=
  ⟨rfl, rfl⟩

/-- C1 (amended): failures the evaluator itself detects come back as Error
objects (for example an integer/boolean type mismatch), and division with
a nonzero divisor yields an Integer; but integer division by zero and
applying a user-defined function to fewer arguments than its parameters
abort with a host-level runtime panic, not an Error. -/
theorem c1_division_and_arity :
    (∀ a1 a2 lv rv w, rv ≠ 0 →
      evalIntegerInfixExpression "/" (.integer a1 lv) (.integer a2 rv) w =
        (.ok (some (.integer w.nextAddr (wrap64 (lv.tdiv rv)))), ⟨w.envs, w.nextAddr + 1⟩)) ∧
    (∀ a1 a2 lv bv w,
      evalInfixExpression "+" (some (.integer a1 lv)) (some (.boolean a2 bv)) w =
        (.ok (some (.errObj w.nextAddr "type mismatch: INTEGER + BOOLEAN")), ⟨w.envs, w.nextAddr + 1⟩)) ∧
    (runProgram 9 divByZeroProgram).1 =
      .error (.goPanic "runtime error: integer divide by zero") ∧
    (runProgram 9 underApplyProgram).1 =
      .error (.goPanic "runtime error: index out of range") := by
  refine ⟨?_, ?_, rfl, rfl⟩
  · intro a1 a2 lv rv w h
    have hz : (rv == 0) = false := by simpa using h
    simp [evalIntegerInfixExpression, hz, alloc]
  · intro a1 a2 lv bv w
    rfl

/-- C1 witness: division of 5 by 2 takes the non-panicking branch. -/
theorem c1_witness :
    evalIntegerInfixExpression "/" (.integer 0 5) (.integer 0 2) initialWorld =
      (.ok (some (.integer 4 (wrap64 ((5 : Int).tdiv 2)))), ⟨[⟨[], none⟩], 5⟩) :=
  c1_division_and_arity.1 0 0 5 2 initialWorld (by decide)

/-! ## C4 -/

/-- C4: the claim says a returned function that increments a captured
variable, invoked twice, observes the first invocation's mutation on the
second.  In the code `let` always writes to the current (innermost)
environment, so the counter closure's `let count = count + 1` creates a
binding in the invocation environment: both invocations yield 1 and agree
under `==`; the second never sees 2. -/
theorem c4_counterexample :
    (runProgram 60 counterTwice).1 = .ok (some (.integer 10 1)) ∧
    (runProgram 60 counterEqual).1 = .ok (some (.boolean 1 true)) ∧
    (runProgram 60 counterTwice).1 ≠ .ok (some (.integer 10 2)) := by
  refine ⟨rfl, rfl, ?_⟩
  rw [show (runProgram 60 counterTwice).1 = .ok (some (.integer 10 1)) from rfl]
  simp

/-- C4 (amended): function literals capture the current environment by
reference (the Function object stores the defining environment, not a
copy), so a closure observes a binding added to its defining scope after
capture; but a returned function cannot mutate the enclosing call's
variable — its `let` writes to the invocation environment — so the counter
closure yields 1 on both invocations. -/
theorem c4_capture_by_reference :
    (∀ fuel params body env w,
      eval (fuel + 1) (some (.fnLit params body)) env w =
        (.ok (some (.funObj w.nextAddr params body env)), ⟨w.envs, w.nextAddr + 1⟩)) ∧
    (runProgram 20 captureByRefProgram).1 = .ok (some (.integer 5 5)) ∧
    (runProgram 60 counterTwice).1 = .ok (some (.integer 10 1)) ∧
    (runProgram 60 counterEqual).1 = .ok (some (.boolean 1 true)) := by
  refine ⟨?_, rfl, rfl, rfl⟩
  intro fuel params body env w
  rfl

/-! ## C6 -/

/-- C6: the claim says the builtin table has six entries and that `len` of
an Array is its element count.  The table in the source has exactly one
entry, and `len([1,2,3])` is the error "argument to `len` not supported,
got ARRAY". -/
theorem c6_counterexample :
    builtinsList.length = 1 ∧
    (runProgram 20 [.exprStmt (some (.callExpr (some (.identE "len"))
        [some (.arrayLit [some (.intLit 1), some (.intLit 2), some (.intLit 3)])]))]).1 =
      .ok (some (.errObj 8 "argument to `len` not supported, got ARRAY")) :=
  ⟨rfl, rfl⟩

/-- C6 (amended): the builtin table has exactly one entry, `len`; `len` of
a String is its byte count (`len("sloth")` is 5), any other argument type
— Arrays included — is a type error, and an argument count other than 1 is
an arity error. -/
theorem c6_len_builtin :
    builtinsList = [("len", LEN_BUILTIN)] ∧
    (∀ a s w, lenBuiltinFn [some (.strObj a s)] w =
      (.ok (some (.integer w.nextAddr (s.utf8ByteSize : Int))), ⟨w.envs, w.nextAddr + 1⟩)) ∧
    (∀ a els w, lenBuiltinFn [some (.arrObj a els)] w =
      (.ok (some (.errObj w.nextAddr "argument to `len` not supported, got ARRAY")), ⟨w.envs, w.nextAddr + 1⟩)) ∧
    (∀ args w, args.length ≠ 1 → lenBuiltinFn args w =
      (.ok (some (.errObj w.nextAddr
        ("wrong number of arguments. got=" ++ toString args.length ++ ", want=1"))),
       ⟨w.envs, w.nextAddr + 1⟩)) ∧
    (runProgram 20 [.exprStmt (some (.callExpr (some (.identE "len"))
        [some (.strLit "sloth")]))]).1 = .ok (some (.integer 5 5)) := by
  refine ⟨rfl, ?_, ?_, ?_, rfl⟩
  · intro a s w
    rfl
  · intro a els w
    rfl
  · intro args w h
    have hl : (args.length != 1) = true := by simpa using h
    simp [lenBuiltinFn, hl, newError, alloc]

/-- C6 witness: `len` applied to an empty argument list is the arity
error. -/
theorem c6_witness :
    lenBuiltinFn [] initialWorld =
      (.ok (some (.errObj 4 "wrong number of arguments. got=0, want=1")), ⟨[⟨[], none⟩], 5⟩) :=
  c6_len_builtin.2.2.2.1 [] initialWorld (by decide)

/-! ## C7 -/

/-- C7: the claim says bare `return;` parses without diagnostics and
evaluates to null.  Parsing `return;` records the diagnostic "no prefix
parse function for ; found" and leaves the return value nil. -/
theorem c7_counterexample :
    parseSource "return;" = ([.returnStmt none], ["no prefix parse function for ; found"]) :=
  rfl

/-- C7 (amended): a return statement is an expression with an optional
trailing semicolon; bare `return;` is not supported — the expression
parser runs on the `;` token, records "no prefix parse function for ;
found" and leaves the value expression nil. -/
theorem c7_return_statement :
    parseSource "return 5;" = ([.returnStmt (some (.intLit 5))], []) ∧
    parseSource "return 5" = ([.returnStmt (some (.intLit 5))], []) ∧
    parseSource "return;" = ([.returnStmt none], ["no prefix parse function for ; found"]) :=
  ⟨rfl, rfl, rfl⟩

/-! ## Step lemmas

One-step unfoldings of the evaluator loops with the recursive call left
opaque, so that proofs can rewrite at exactly one level. -/

lemma eval_exprStmt (fuel : Nat) (e : Option Node) (env : EnvRef) (w : World) :
    eval (fuel + 1) (some (.exprStmt e)) env w = eval fuel e env w := rfl

lemma eval_blockStmt (fuel : Nat) (ss : List Node) (env : EnvRef) (w : World) :
    eval (fuel + 1) (some (.blockStmt ss)) env w = evalBlockA fuel ss env none w := rfl

lemma eval_program (fuel : Nat) (ss : List Node) (env : EnvRef) (w : World) :
    eval (fuel + 1) (some (.program ss)) env w = evalProgramA fuel ss env none w := rfl

lemma evalBlockA_cons (fuel : Nat) (s : Node) (rest : List Node) (env : EnvRef)
    (prev : Option Obj) (w : World) :
    evalBlockA (fuel + 1) (s :: rest) env prev w =
      (match eval fuel (some s) env w with
       | (.error r, w1) => (.error r, w1)
       | (.ok (some o), w1) =>
         if typeOf o == RETURN_VALUE_OBJ || typeOf o == ERROR_OBJ then (.ok (some o), w1)
         else evalBlockA fuel rest env (some o) w1
       | (.ok none, w1) => evalBlockA fuel rest env none w1) := by
  rcases h : eval fuel (some s) env w with ⟨r, w1⟩
  simp only [evalBlockA]
  rw [h]
  rcases r with r | v
  · rfl
  · rcases v with _ | o <;> rfl

lemma evalProgramA_cons (fuel : Nat) (s : Node) (rest : List Node) (env : EnvRef)
    (prev : Option Obj) (w : World) :
    evalProgramA (fuel + 1) (s :: rest) env prev w =
      (match eval fuel (some s) env w with
       | (.error r, w1) => (.error r, w1)
       | (.ok (some (.retVal a v)), w1) => (.ok v, w1)
       | (.ok (some (.errObj a m)), w1) => (.ok (some (.errObj a m)), w1)
       | (.ok result, w1) => evalProgramA fuel rest env result w1) := by
  rcases h : eval fuel (some s) env w with ⟨r, w1⟩
  simp only [evalProgramA]
  rw [h]
  rcases r with r | v
  · rfl
  · rcases v with _ | o
    · rfl
    · cases o <;> rfl

lemma evalExpressionsA_cons (fuel : Nat) (e : Option Node) (es : List (Option Node))
    (env : EnvRef) (acc : List (Option Obj)) (w : World) :
    evalExpressionsA (fuel + 1) (e :: es) env acc w =
      (match eval fuel e env w with
       | (.error r, w1) => (.error r, w1)
       | (.ok v, w1) =>
         if isErrorO v then (.ok [v], w1)
         else evalExpressionsA fuel es env (acc ++ [v]) w1) := by
  rcases h : eval fuel e env w with ⟨r, w1⟩
  simp only [evalExpressionsA]
  all_goals rw [h]
  all_goals rcases r with r | v
  all_goals rfl

lemma applyFunction_noargs (fuel : Nat) (a : Addr) (body : Node) (fenv : EnvRef) (w : World) :
    applyFunction (fuel + 1) (some (.funObj a [] body fenv)) [] w =
      (match eval fuel (some body) w.envs.length ⟨w.envs ++ [⟨[], some fenv⟩], w.nextAddr⟩ with
       | (.error r, w3) => (.error r, w3)
       | (.ok evaluated, w3) => (.ok (unwrapReturnValue evaluated), w3)) := by
  rcases h : eval fuel (some body) w.envs.length ⟨w.envs ++ [⟨[], some fenv⟩], w.nextAddr⟩
    with ⟨r, w3⟩
  simp only [applyFunction, newEnclosedEnvironment, bindParams]
  all_goals rw [h]
  all_goals rcases r with r | v
  all_goals rfl

/-! ## C3 -/

/-- A block holding `return 7` under `n` layers of `if (true) { ... }`
evaluates to the marker around the freshly allocated 7, at any
environment, for the exact fuel `4 * n + 3`. -/
lemma nestedIf_block (n : Nat) : ∀ env prev w,
    evalBlockA (4 * n + 3) [nestedIf n] env prev w =
      (.ok (some (.retVal (w.nextAddr + 1) (some (.integer w.nextAddr 7)))),
       ⟨w.envs, w.nextAddr + 2⟩) := by
  induction n with
  | zero => intro env prev w; rfl
  | succ n ih =>
    intro env prev w
    rw [show 4 * (n + 1) + 3 = 4 * n + 3 + 1 + 1 + 1 + 1 from by ring]
    rw [evalBlockA_cons]
    rw [show eval (4 * n + 3 + 1 + 1 + 1) (some (nestedIf (n + 1))) env w =
        evalBlockA (4 * n + 3) [nestedIf n] env none w from rfl]
    rw [ih env none w]
    rfl

/-- Applying `fn() { <return 7 under n ifs> }` to no arguments yields the
unwrapped 7 at fuel `4 * n + 6`. -/
lemma nestedIf_call (n : Nat) (env : EnvRef) (w : World) :
    eval (4 * n + 6) (some (.callExpr (some (.fnLit [] (.blockStmt [nestedIf n]))) [])) env w =
      (.ok (some (.integer (w.nextAddr + 1) 7)),
       ⟨w.envs ++ [⟨[], some env⟩], w.nextAddr + 3⟩) := by
  rw [show 4 * n + 6 = 4 * n + 3 + 1 + 1 + 1 from by ring]
  rw [show eval (4 * n + 3 + 1 + 1 + 1)
      (some (.callExpr (some (.fnLit [] (.blockStmt [nestedIf n]))) [])) env w =
      applyFunction (4 * n + 3 + 1 + 1)
        (some (.funObj w.nextAddr [] (.blockStmt [nestedIf n]) env)) []
        ⟨w.envs, w.nextAddr + 1⟩ from rfl]
  rw [applyFunction_noargs]
  rw [show eval (4 * n + 3 + 1) (some (.blockStmt [nestedIf n]))
      (World.envs ⟨w.envs, w.nextAddr + 1⟩).length
      ⟨(World.envs ⟨w.envs, w.nextAddr + 1⟩) ++ [⟨[], some env⟩],
       World.nextAddr ⟨w.envs, w.nextAddr + 1⟩⟩ =
      evalBlockA (4 * n + 3) [nestedIf n] w.envs.length none
        ⟨w.envs ++ [⟨[], some env⟩], w.nextAddr + 1⟩ from rfl]
  rw [nestedIf_block n]
  rfl

/-- C3: the claim says program evaluation never returns the ReturnValue
marker.  `evalProgram` unwraps exactly one layer, and a return whose value
expression is an if-block containing another return double-wraps: the
program's result is itself a marker. -/
theorem c3_counterexample :
    (runProgram 9 doubleReturnProgram).1 = .ok (some (.retVal 5 (some (.integer 4 2)))) ∧
    typeOf (.retVal 5 (some (.integer 4 2))) = RETURN_VALUE_OBJ :=
  ⟨rfl, rfl⟩

/-- C3 (amended): program evaluation unwraps one layer of a ReturnValue
marker produced by a statement; block evaluation returns the marker
unopened; and a function body with `return` nested under arbitrarily many
if/blocks applies to the returned inner value — but when the returned
expression itself evaluates to a marker, the single unwrap leaves a marker
as the program result. -/
theorem c3_return_unwrapping :
    (∀ fuel s rest env prev w a v w1,
      eval fuel (some s) env w = (.ok (some (.retVal a v)), w1) →
      evalProgramA (fuel + 1) (s :: rest) env prev w = (.ok v, w1)) ∧
    (∀ fuel s rest env prev w a v w1,
      eval fuel (some s) env w = (.ok (some (.retVal a v)), w1) →
      evalBlockA (fuel + 1) (s :: rest) env prev w = (.ok (some (.retVal a v)), w1)) ∧
    (∀ n env w,
      eval (4 * n + 6) (some (.callExpr (some (.fnLit [] (.blockStmt [nestedIf n]))) [])) env w =
        (.ok (some (.integer (w.nextAddr + 1) 7)),
         ⟨w.envs ++ [⟨[], some env⟩], w.nextAddr + 3⟩)) ∧
    (runProgram 9 doubleReturnProgram).1 = .ok (some (.retVal 5 (some (.integer 4 2)))) := by
  refine ⟨?_, ?_, fun n env w => nestedIf_call n env w, rfl⟩
  · intro fuel s rest env prev w a v w1 h
    simp only [evalProgramA]
    rw [h]
  · intro fuel s rest env prev w a v w1 h
    simp only [evalBlockA]
    rw [h]
    rfl

/-- C3 witness: a direct `return 7;` statement, unwrapped at the program
level and passed through at the block level. -/
theorem c3_witness :
    evalProgramA 3 [.returnStmt (some (.intLit 7))] 0 none initialWorld =
      (.ok (some (.integer 4 7)), ⟨[⟨[], none⟩], 6⟩) ∧
    evalBlockA 3 [.returnStmt (some (.intLit 7))] 0 none initialWorld =
      (.ok (some (.retVal 5 (some (.integer 4 7)))), ⟨[⟨[], none⟩], 6⟩) :=
  ⟨c3_return_unwrapping.1 2 (.returnStmt (some (.intLit 7))) [] 0 none initialWorld 5
      (some (.integer 4 7)) ⟨[⟨[], none⟩], 6⟩ rfl,
   c3_return_unwrapping.2.1 2 (.returnStmt (some (.intLit 7))) [] 0 none initialWorld 5
      (some (.integer 4 7)) ⟨[⟨[], none⟩], 6⟩ rfl⟩

/-! ## C5 -/

set_option maxHeartbeats 1000000 in
set_option maxRecDepth 8000 in
/-- C5: lexing, parsing and evaluating hash and array access — the hash
program lexes and parses without diagnostics and yields Integer 1, the
out-of-bounds array access parses cleanly and yields the shared NULL, and
in general any negative or past-the-end index on any array yields NULL,
never an Error. -/
theorem c5_hash_array_access :
    runSource "\x7b\"a\":1,\"b\":2\x7d[\"a\"]" 60 = ([], .ok (some (.integer 5 1))) ∧
    runSource "[1,2,3][5]" 60 = ([], .ok (some NULL)) ∧
    (∀ a b els (idx : Int) w, idx < 0 ∨ idx > (els.length : Int) - 1 →
      evalArrayIndexExpression (.arrObj a els) (.integer b idx) w = (.ok (some NULL), w)) := by
  have hp1 : parseSource "\x7b\"a\":1,\"b\":2\x7d[\"a\"]" = (hashAccessAst, []) := rfl
  have he1 : (runProgram 60 hashAccessAst).1 = .ok (some (.integer 5 1)) := rfl
  have hp2 : parseSource "[1,2,3][5]" = (arrayAccessAst, []) := rfl
  have he2 : (runProgram 60 arrayAccessAst).1 = .ok (some NULL) := rfl
  refine ⟨?_, ?_, ?_⟩
  · simp only [runSource, hp1, List.length_nil]
    simpa using he1
  · simp only [runSource, hp2, List.length_nil]
    simpa using he2
  · intro a b els idx w h
    have hc : (decide (idx < 0) || decide (idx > (els.length : Int) - 1)) = true := by
      rcases h with h | h <;> simp [h]
    simp only [evalArrayIndexExpression]
    rw [if_pos (by simpa using hc)]

/-- C5 witness: index 5 into a three-element array is out of bounds. -/
theorem c5_witness :
    evalArrayIndexExpression (.arrObj 7 [some (.integer 4 1), some (.integer 5 2), some (.integer 6 3)])
      (.integer 8 5) initialWorld = (.ok (some NULL), initialWorld) :=
  c5_hash_array_access.2.2 7 8 _ 5 initialWorld (by right; decide)

/-! ## C2 -/

lemma isErrorO_errObj (a : Addr) (m : String) : isErrorO (some (.errObj a m)) = true := rfl

lemma isErrorO_some (o : Obj) : isErrorO (some o) = (typeOf o == ERROR_OBJ) := rfl

lemma typeOf_errObj (a : Addr) (m : String) : typeOf (.errObj a m) = ERROR_OBJ := rfl


/-- C2: once a child evaluation produces an Error object, every enclosing
evaluation returns that same Error — same allocation, same message, same
world — without wrapping or further evaluation, at every level: prefix and
infix operands, return and let values, if conditions, index operands, call
function and argument positions, array elements, hash keys and values,
block statements, program statements, and function bodies; and expression
lists evaluate strictly left-to-right, the first Error becoming a
singleton result that the array/call level returns as the overall
result. -/
theorem c2_error_propagation :
    (∀ fuel op left right env w a m w1,
      eval fuel left env w = (.ok (some (.errObj a m)), w1) →
      eval (fuel + 1) (some (.infixExpr op left right)) env w = (.ok (some (.errObj a m)), w1)) ∧
    (∀ fuel op left right env w lv w1 a m w2,
      eval fuel left env w = (.ok lv, w1) → isErrorO lv = false →
      eval fuel right env w1 = (.ok (some (.errObj a m)), w2) →
      eval (fuel + 1) (some (.infixExpr op left right)) env w = (.ok (some (.errObj a m)), w2)) ∧
    (∀ fuel op right env w a m w1,
      eval fuel right env w = (.ok (some (.errObj a m)), w1) →
      eval (fuel + 1) (some (.prefixExpr op right)) env w = (.ok (some (.errObj a m)), w1)) ∧
    (∀ fuel e env w a m w1,
      eval fuel e env w = (.ok (some (.errObj a m)), w1) →
      eval (fuel + 1) (some (.returnStmt e)) env w = (.ok (some (.errObj a m)), w1)) ∧
    (∀ fuel name e env w a m w1,
      eval fuel e env w = (.ok (some (.errObj a m)), w1) →
      eval (fuel + 1) (some (.letStmt name e)) env w = (.ok (some (.errObj a m)), w1)) ∧
    (∀ fuel cond cons alt env w a m w1,
      eval fuel cond env w = (.ok (some (.errObj a m)), w1) →
      eval (fuel + 1) (some (.ifExpr cond cons alt)) env w = (.ok (some (.errObj a m)), w1)) ∧
    (∀ fuel left idx env w a m w1,
      eval fuel left env w = (.ok (some (.errObj a m)), w1) →
      eval (fuel + 1) (some (.indexExpr left idx)) env w = (.ok (some (.errObj a m)), w1)) ∧
    (∀ fuel left idx env w lv w1 a m w2,
      eval fuel left env w = (.ok lv, w1) → isErrorO lv = false →
      eval fuel idx env w1 = (.ok (some (.errObj a m)), w2) →
      eval (fuel + 1) (some (.indexExpr left idx)) env w = (.ok (some (.errObj a m)), w2)) ∧
    (∀ fuel fn args env w a m w1,
      eval fuel fn env w = (.ok (some (.errObj a m)), w1) →
      eval (fuel + 1) (some (.callExpr fn args)) env w = (.ok (some (.errObj a m)), w1)) ∧
    (∀ fuel fn args env w fv w1 a m w2,
      eval fuel fn env w = (.ok fv, w1) → isErrorO fv = false →
      evalExpressionsA fuel args env [] w1 = (.ok [some (.errObj a m)], w2) →
      eval (fuel + 1) (some (.callExpr fn args)) env w = (.ok (some (.errObj a m)), w2)) ∧
    (∀ fuel e es env acc w a m w1,
      eval fuel e env w = (.ok (some (.errObj a m)), w1) →
      evalExpressionsA (fuel + 1) (e :: es) env acc w = (.ok [some (.errObj a m)], w1)) ∧
    (∀ fuel e es env acc w v w1,
      eval fuel e env w = (.ok v, w1) → isErrorO v = false →
      evalExpressionsA (fuel + 1) (e :: es) env acc w = evalExpressionsA fuel es env (acc ++ [v]) w1) ∧
    (∀ fuel elems env w a m w1,
      evalExpressionsA fuel elems env [] w = (.ok [some (.errObj a m)], w1) →
      eval (fuel + 1) (some (.arrayLit elems)) env w = (.ok (some (.errObj a m)), w1)) ∧
    (∀ fuel k v rest env acc w a m w1,
      eval fuel k env w = (.ok (some (.errObj a m)), w1) →
      evalHashPairsA (fuel + 1) ((k, v) :: rest) env acc w = (.ok (some (.errObj a m)), w1)) ∧
    (∀ fuel k v rest env acc w kobj hk w1 a m w2,
      eval fuel k env w = (.ok (some kobj), w1) → typeOf kobj ≠ ERROR_OBJ →
      hashKeyOf kobj = some hk →
      eval fuel v env w1 = (.ok (some (.errObj a m)), w2) →
      evalHashPairsA (fuel + 1) ((k, v) :: rest) env acc w = (.ok (some (.errObj a m)), w2)) ∧
    (∀ fuel s rest env prev w a m w1,
      eval fuel (some s) env w = (.ok (some (.errObj a m)), w1) →
      evalBlockA (fuel + 1) (s :: rest) env prev w = (.ok (some (.errObj a m)), w1)) ∧
    (∀ fuel s rest env prev w a m w1,
      eval fuel (some s) env w = (.ok (some (.errObj a m)), w1) →
      evalProgramA (fuel + 1) (s :: rest) env prev w = (.ok (some (.errObj a m)), w1)) ∧
    (∀ fuel a ps body fenv args w w2 aa m w3,
      bindParams ⟨w.envs ++ [⟨[], some fenv⟩], w.nextAddr⟩ w.envs.length ps args = .ok w2 →
      eval fuel (some body) w.envs.length w2 = (.ok (some (.errObj aa m)), w3) →
      applyFunction (fuel + 1) (some (.funObj a ps body fenv)) args w =
        (.ok (some (.errObj aa m)), w3)) := by
  refine ⟨?_, ?_, ?_, ?_, ?_, ?_, ?_, ?_, ?_, ?_, ?_, ?_, ?_, ?_, ?_, ?_, ?_, ?_⟩
  · intro fuel op left right env w a m w1 h
    simp [eval, h, isErrorO_errObj]
  · intro fuel op left right env w lv w1 a m w2 h1 h2 h3
    simp [eval, h1, h2, h3, isErrorO_errObj]
  · intro fuel op right env w a m w1 h
    simp [eval, h, isErrorO_errObj]
  · intro fuel e env w a m w1 h
    simp [eval, h, isErrorO_errObj]
  · intro fuel name e env w a m w1 h
    simp [eval, h, isErrorO_errObj]
  · intro fuel cond cons alt env w a m w1 h
    simp [eval, h, isErrorO_errObj]
  · intro fuel left idx env w a m w1 h
    simp [eval, h, isErrorO_errObj]
  · intro fuel left idx env w lv w1 a m w2 h1 h2 h3
    simp [eval, h1, h2, h3, isErrorO_errObj]
  · intro fuel fn args env w a m w1 h
    simp [eval, h, isErrorO_errObj]
  · intro fuel fn args env w fv w1 a m w2 h1 h2 h3
    simp [eval, h1, h2, h3, isErrorO_errObj]
  · intro fuel e es env acc w a m w1 h
    rw [evalExpressionsA_cons, h]
    simp [isErrorO_errObj]
  · intro fuel e es env acc w v w1 h1 h2
    rw [evalExpressionsA_cons, h1]
    simp [h2]
  · intro fuel elems env w a m w1 h
    simp [eval, h, isErrorO_errObj]
  · intro fuel k v rest env acc w a m w1 h
    simp only [evalHashPairsA]
    rw [h]
    simp [isErrorO_errObj]
  · intro fuel k v rest env acc w kobj hk w1 a m w2 h1 h2 h3 h4
    have h2b : (typeOf kobj == ERROR_OBJ) = false := by simpa using h2
    simp only [evalHashPairsA]
    rw [h1]
    simp [isErrorO_some, h2b, h3, h4, isErrorO_errObj, typeOf_errObj]
  · intro fuel s rest env prev w a m w1 h
    rw [evalBlockA_cons, h]
    rfl
  · intro fuel s rest env prev w a m w1 h
    rw [evalProgramA_cons, h]
  · intro fuel a ps body fenv args w w2 aa m w3 h1 h2
    simp only [applyFunction, newEnclosedEnvironment]
    rw [h1]
    simp [h2, unwrapReturnValue]

/-- C2 witness: an unbound identifier in the left operand of `+` produces
the Error that the infix node then returns unchanged. -/
theorem c2_witness :
    eval 2 (some (.infixExpr "+" (some (.identE "nope")) (some (.intLit 1)))) 0 initialWorld =
      (.ok (some (.errObj 4 "identifier not found: nope")), ⟨[⟨[], none⟩], 5⟩) :=
  c2_error_propagation.1 1 "+" (some (.identE "nope")) (some (.intLit 1)) 0 initialWorld
    4 "identifier not found: nope" ⟨[⟨[], none⟩], 5⟩ rfl

/-! ## C8 -/

lemma skipWhitespaceAux_not_ws (fuel : Nat) (l : Lexer)
    (h : (l.ch == ' ' || l.ch == '\t' || l.ch == '\n' || l.ch == '\r') = false) :
    skipWhitespaceAux fuel l = l := by
  cases fuel with
  | zero => rfl
  | succ fuel => simp [skipWhitespaceAux, h]

/-- `readString`'s loop, started anywhere before end-of-input with no
closing quote (and no NUL byte) left, runs to end-of-input and stops
there. -/
lemma readStringAux_to_end : ∀ (fuel : Nat) (l : Lexer),
    l.input.length < l.readPosition + fuel →
    l.readPosition ≤ l.input.length →
    (∀ i, l.readPosition ≤ i → ∀ hi : i < l.input.length, l.input[i] ≠ '"' ∧ l.input[i] ≠ '\x00') →
    readStringAux fuel l = ⟨l.input, l.input.length, l.input.length + 1, '\x00'⟩ := by
  intro fuel
  induction fuel with
  | zero => intro l h1 h2 h3; omega
  | succ fuel ih =>
    intro l h1 h2 h3
    by_cases hlt : l.readPosition < l.input.length
    · have hch : l.input.getD l.readPosition '\x00' = l.input[l.readPosition] :=
        List.getD_eq_getElem l.input '\x00' hlt
      have hc := h3 l.readPosition (le_refl _) hlt
      have hcond : (l.input[l.readPosition] == '"' || l.input[l.readPosition] == '\x00') = false := by
        simp [hc.1, hc.2]
      simp only [readStringAux, readCharL, if_neg (by omega : ¬ l.readPosition ≥ l.input.length),
        hch, hcond, Bool.false_eq_true, if_false]
      exact ih ⟨l.input, l.readPosition, l.readPosition + 1, l.input[l.readPosition]⟩
        (show l.input.length < l.readPosition + 1 + fuel by omega)
        (show l.readPosition + 1 ≤ l.input.length by omega)
        (fun i hi hilen =>
          h3 i (le_trans (Nat.le_succ _) (show l.readPosition + 1 ≤ i from hi)) hilen)
    · have heq : l.readPosition = l.input.length := by omega
      simp only [readStringAux, readCharL, if_pos (by omega : l.readPosition ≥ l.input.length)]
      simp [heq]

/-- On an input that opens a string and never closes it, `NextToken`
returns an ordinary STRING token holding everything after the quote and
leaves the lexer at end-of-input. -/
lemma nextToken_unterminated (cs : List Char)
    (h : ∀ c ∈ cs, c ≠ '"' ∧ c ≠ '\x00') :
    nextTokenL (newLexer ('"' :: cs)) =
      (⟨TK.STRING, String.mk cs⟩,
       ⟨'"' :: cs, cs.length + 2, cs.length + 3, '\x00'⟩) := by
  have hnew : newLexer ('"' :: cs) = ⟨'"' :: cs, 0, 1, '"'⟩ := by
    simp [newLexer, readCharL]
  have hws : skipWhitespace (⟨'"' :: cs, 0, 1, '"'⟩ : Lexer) = ⟨'"' :: cs, 0, 1, '"'⟩ := by
    unfold skipWhitespace
    exact skipWhitespaceAux_not_ws _ _ rfl
  have hread : readStringAux (('"' :: cs).length + 1) (⟨'"' :: cs, 0, 1, '"'⟩ : Lexer) =
      ⟨'"' :: cs, cs.length + 1, cs.length + 2, '\x00'⟩ := by
    have := readStringAux_to_end (('"' :: cs).length + 1) (⟨'"' :: cs, 0, 1, '"'⟩ : Lexer)
      (show ('"' :: cs).length < 1 + (('"' :: cs).length + 1) by omega)
      (show 1 ≤ ('"' :: cs).length by simp)
      ?chars
    · simpa using this
    · intro i hi hilen
      have hi1 : 1 ≤ i := hi
      have hlen : i < cs.length + 1 := by simpa using hilen
      rcases i with _ | j
      · omega
      · have hj : j < cs.length := by omega
        have hmem : cs[j] ∈ cs := List.getElem_mem hj
        simpa using h (cs[j]) hmem
  rw [hnew]
  have key : nextTokenL (⟨'"' :: cs, 0, 1, '"'⟩ : Lexer) =
      ((⟨TK.STRING, (readStringL (⟨'"' :: cs, 0, 1, '"'⟩ : Lexer)).1⟩ : Token),
       readCharL (readStringL (⟨'"' :: cs, 0, 1, '"'⟩ : Lexer)).2) := rfl
  rw [key]
  unfold readStringL
  rw [hread]
  have hs : sliceStr ('"' :: cs) (0 + 1) (cs.length + 1) = String.mk cs := by
    simp [sliceStr, String.mk]
  simp only [hs]
  simp [readCharL, String.mk]

/-- C8: the claim says an unterminated string literal is reported by the
lexer or parser as an error.  It is not: `readString` stops silently at
end-of-input, the truncated text comes back as an ordinary STRING token,
and the whole input parses with zero diagnostics into a string-literal
expression statement. -/
theorem c8_counterexample :
    parseSource "\"abc" = ([.exprStmt (some (.strLit "abc"))], []) :=
  rfl

/-- C8 (amended): an unterminated string consumes to end-of-input and is
silently truncated: for every input `"cs` with no closing quote (and no
NUL byte), the lexer yields an ordinary STRING token whose literal is all
of `cs`, and concretely `"abc` parses with no diagnostics into the string
literal "abc". -/
theorem c8_unterminated_string :
    (∀ cs : List Char, (∀ c ∈ cs, c ≠ '"' ∧ c ≠ '\x00') →
      nextTokenL (newLexer ('"' :: cs)) =
        (⟨TK.STRING, String.mk cs⟩,
         ⟨'"' :: cs, cs.length + 2, cs.length + 3, '\x00'⟩)) ∧
    parseSource "\"abc" = ([.exprStmt (some (.strLit "abc"))], []) :=
  ⟨nextToken_unterminated, rfl⟩

/-- C8 witness: the unterminated `"abc` as a character list. -/
theorem c8_witness :
    nextTokenL (newLexer ['"', 'a', 'b', 'c']) =
      (⟨TK.STRING, String.mk ['a', 'b', 'c']⟩,
       ⟨['"', 'a', 'b', 'c'], 5, 6, '\x00'⟩) :=
  c8_unterminated_string.1 ['a', 'b', 'c'] (by decide)

/-! ## C10 -/

/-- Statements that ran through compose: the program loop on `ss ++ ts`
reaches `ts` with the fuel and world the run left behind (the running
`result` becomes some intermediate `prev1`, which the continuation never
reads before overwriting). -/
lemma runsThrough_append {env fuel ss w fuel1 w1}
    (h : RunsThrough env fuel ss w fuel1 w1) :
    ∀ ts prev, ∃ prev1, evalProgramA fuel (ss ++ ts) env prev w =
      evalProgramA fuel1 ts env prev1 w1 := by
  induction h with
  | nil => exact fun ts prev => ⟨prev, rfl⟩
  | @cons fuel s rest w r w2 fuel1 w3 hev hne _ ih =>
    intro ts prev
    rw [List.cons_append, evalProgramA_cons, hev]
    rcases r with _ | o
    · exact ih ts none
    · cases o <;> first
        | exact ih ts _
        | exact absurd hne (by simp [notEarlyExit])

/-- C10: a `let` statement binds the name but produces no object — Go nil,
not the Null object: the LetStatement arm of Eval falls through the switch
and returns nil, so a program whose last executed statement is a `let`
(with no earlier return or error) evaluates to nil overall. -/
theorem c10_let_yields_nil :
    (∀ fuel name e env w val w1, eval fuel e env w = (.ok val, w1) → isErrorO val = false →
      eval (fuel + 1) (some (.letStmt name e)) env w = (.ok none, envSet w1 env name val)) ∧
    (∀ env ss fuel w fuel1 w1 name e prev val w2,
      RunsThrough env fuel ss w (fuel1 + 2) w1 →
      eval fuel1 e env w1 = (.ok val, w2) → isErrorO val = false →
      evalProgramA fuel (ss ++ [.letStmt name e]) env prev w = (.ok none, envSet w2 env name val)) ∧
    (runProgram 9 [.letStmt "x" (some (.intLit 5))]).1 = .ok none := by
  have hlet : ∀ fuel name e env w val w1, eval fuel e env w = (.ok val, w1) →
      isErrorO val = false →
      eval (fuel + 1) (some (.letStmt name e)) env w = (.ok none, envSet w1 env name val) := by
    intro fuel name e env w val w1 h1 h2
    simp [eval, h1, h2]
  refine ⟨hlet, ?_, rfl⟩
  intro env ss fuel w fuel1 w1 name e prev val w2 hrun h1 h2
  obtain ⟨prev1, hcomp⟩ := runsThrough_append hrun [.letStmt name e] prev
  rw [hcomp, show fuel1 + 2 = (fuel1 + 1) + 1 from rfl, evalProgramA_cons,
    hlet fuel1 name e env w1 val w2 h1 h2]
  rfl

/-- C10 witness: `let x = 5;` evaluates to nil with `x` bound to the fresh
Integer 5. -/
theorem c10_witness :
    evalProgramA 3 [.letStmt "x" (some (.intLit 5))] 0 none initialWorld =
      (.ok none, ⟨[⟨[("x", some (.integer 4 5))], none⟩], 5⟩) :=
  c10_let_yields_nil.2.1 0 [] 3 initialWorld 1 initialWorld "x" (some (.intLit 5)) none
    (some (.integer 4 5)) ⟨[⟨[], none⟩], 5⟩ RunsThrough.nil rfl rfl

/-! ## C9: the canonical-singleton invariant

Every Boolean the evaluator hands out is one of the two shared singletons
and every Null is the shared NULL (`okObj`), because those objects are
only ever produced from the package-level vars.  `OkOut` packages the
invariant for a single evaluation step; `evalInv` below establishes it
for the whole evaluator by strong induction on fuel. -/

lemma okOut_ok {v : Option Obj} {w : World} (h1 : okW w = true) (h2 : okOpt v = true) :
    OkOut (.ok v, w) :=
  ⟨h1, fun v2 hv => by cases hv; exact h2⟩

lemma okOut_err {r : RunErr} {w : World} (h1 : okW w = true) : OkOut (.error r, w) :=
  ⟨h1, fun v2 hv => by cases hv⟩

lemma okObj_TRUE : okObj TRUE = true := rfl

lemma okObj_FALSE : okObj FALSE = true := rfl

lemma okObj_NULL : okObj NULL = true := rfl

lemma okObj_nativeBool (b : Bool) : okObj (nativeBoolToBooleanObject b) = true := by
  cases b <;> rfl

lemma okOpt_some (o : Obj) : okOpt (some o) = okObj o := rfl

lemma okW_mk_envs (w : World) (n : Nat) : okW ⟨w.envs, n⟩ = okW w := rfl

lemma okList_append (xs : List (Option Obj)) (v : Option Obj) :
    okList (xs ++ [v]) = (okList xs && okOpt v) := by
  induction xs with
  | nil => simp [okList]
  | cons x xs ih => simp [okList, ih, Bool.and_assoc]

lemma okList_getD (els : List (Option Obj)) (i : Nat) (h : okList els = true) :
    okOpt (els.getD i none) = true := by
  induction els generalizing i with
  | nil => simp [okOpt]
  | cons x xs ih =>
    rw [okList] at h
    rcases i with _ | j
    · simpa using (Bool.and_elim_left h)
    · simpa using ih j (Bool.and_elim_right h)

lemma okPairs_get (ps : List (HashKey × Obj × Option Obj)) (k : HashKey)
    (pr : Obj × Option Obj) (h : okPairs ps = true) (hg : pairsGet ps k = some pr) :
    okObj pr.1 = true ∧ okOpt pr.2 = true := by
  induction ps with
  | nil => cases hg
  | cons p rest ih =>
    rcases p with ⟨pk, pko, pvo⟩
    rw [okPairs] at h
    simp only [Bool.and_eq_true] at h
    obtain ⟨⟨hpk, hpv⟩, hrest⟩ := h
    rw [pairsGet] at hg
    by_cases hk : pk = k
    · rw [if_pos hk] at hg
      cases hg
      exact ⟨hpk, hpv⟩
    · rw [if_neg hk] at hg
      exact ih hrest hg

lemma okPairs_set (ps : List (HashKey × Obj × Option Obj)) (k : HashKey)
    (pr : Obj × Option Obj) (h : okPairs ps = true) (h1 : okObj pr.1 = true)
    (h2 : okOpt pr.2 = true) : okPairs (pairsSet ps k pr) = true := by
  induction ps with
  | nil => simp [pairsSet, okPairs, h1, h2]
  | cons p rest ih =>
    rcases p with ⟨pk, pko, pvo⟩
    rw [okPairs] at h
    simp only [Bool.and_eq_true] at h
    obtain ⟨⟨hpk, hpv⟩, hrest⟩ := h
    rw [pairsSet]
    by_cases hk : pk = k
    · rw [if_pos hk]
      simp [okPairs, h1, h2, hrest]
    · rw [if_neg hk]
      simp [okPairs, hpk, hpv, ih hrest]

lemma okStore_get (s : List (String × Option Obj)) (name : String) (v : Option Obj)
    (h : okStore s = true) (hg : storeGet s name = some v) : okOpt v = true := by
  induction s with
  | nil => cases hg
  | cons p rest ih =>
    rcases p with ⟨k, pv⟩
    rw [okStore] at h
    rw [storeGet] at hg
    by_cases hk : (k == name) = true
    · rw [if_pos hk] at hg
      cases hg
      exact Bool.and_elim_left h
    · rw [if_neg (by simpa using hk)] at hg
      exact ih (Bool.and_elim_right h) hg

lemma okStore_set (s : List (String × Option Obj)) (name : String) (v : Option Obj)
    (h : okStore s = true) (hv : okOpt v = true) : okStore (storeSet s name v) = true := by
  induction s with
  | nil => simp [storeSet, okStore, hv]
  | cons p rest ih =>
    rcases p with ⟨k, pv⟩
    rw [okStore] at h
    rw [storeSet]
    by_cases hk : (k == name) = true
    · rw [if_pos hk]
      simp [okStore, hv, Bool.and_elim_right h]
    · rw [if_neg (by simpa using hk)]
      simp [okStore, Bool.and_elim_left h, ih (Bool.and_elim_right h)]

lemma okEnvs_get (envs : List EnvData) (ref : Nat) (e : EnvData)
    (h : okEnvs envs = true) (hg : envs[ref]? = some e) : okStore e.store = true := by
  induction envs generalizing ref with
  | nil => cases hg
  | cons x xs ih =>
    rw [okEnvs] at h
    rcases ref with _ | j
    · rw [List.getElem?_cons_zero] at hg
      cases hg
      exact Bool.and_elim_left h
    · rw [List.getElem?_cons_succ] at hg
      exact ih j (Bool.and_elim_right h) hg

lemma okEnvs_set (envs : List EnvData) (ref : Nat) (name : String) (v : Option Obj)
    (h : okEnvs envs = true) (hv : okOpt v = true) :
    okEnvs (envsSet envs ref name v) = true := by
  induction envs generalizing ref with
  | nil => simpa [envsSet] using h
  | cons x xs ih =>
    rw [okEnvs] at h
    rcases ref with _ | j
    · rw [envsSet]
      simp [okEnvs, okStore_set x.store name v (Bool.and_elim_left h) hv,
        Bool.and_elim_right h]
    · rw [envsSet]
      simp [okEnvs, Bool.and_elim_left h, ih j (Bool.and_elim_right h)]

lemma okEnvs_append_empty (envs : List EnvData) (outer : Option EnvRef)
    (h : okEnvs envs = true) : okEnvs (envs ++ [⟨[], outer⟩]) = true := by
  induction envs with
  | nil => rfl
  | cons x xs ih =>
    rw [okEnvs] at h
    rw [List.cons_append, okEnvs]
    simp [Bool.and_elim_left h, ih (Bool.and_elim_right h)]

lemma okW_envSet (w : World) (ref : EnvRef) (name : String) (v : Option Obj)
    (h : okW w = true) (hv : okOpt v = true) : okW (envSet w ref name v) = true :=
  okEnvs_set w.envs ref name v h hv

lemma envGetAux_ok (envs : List EnvData) (h : okEnvs envs = true) :
    ∀ (gfuel : Nat) (ref : EnvRef) (name : String) (v : Option Obj),
      envGetAux envs gfuel ref name = some v → okOpt v = true := by
  intro gfuel
  induction gfuel with
  | zero => intro ref name v hg; cases hg
  | succ gfuel ih =>
    intro ref name v hg
    rw [envGetAux] at hg
    rcases he : envs[ref]? with _ | e
    · simp only [he] at hg
      cases hg
    · simp only [he] at hg
      rcases hs : storeGet e.store name with _ | sv
      · simp only [hs] at hg
        rcases ho : e.outer with _ | out
        · simp only [ho] at hg
          cases hg
        · simp only [ho] at hg
          exact ih out name v hg
      · simp only [hs] at hg
        cases hg
        exact okStore_get e.store name _ (okEnvs_get envs ref e h he) hs

lemma bindParams_ok : ∀ (ps : List String) (args : List (Option Obj)) (w : World)
    (env : EnvRef) (w2 : World), okW w = true → okList args = true →
    bindParams w env ps args = .ok w2 → okW w2 = true := by
  intro ps
  induction ps with
  | nil => intro args w env w2 hw _ hb; cases hb; exact hw
  | cons p ps ih =>
    intro args w env w2 hw ha hb
    rcases args with _ | ⟨a, as_⟩
    · cases hb
    · rw [okList] at ha
      rw [bindParams] at hb
      exact ih as_ (envSet w env p a) env w2
        (okW_envSet w env p a hw (Bool.and_elim_left ha)) (Bool.and_elim_right ha) hb

lemma unwrapReturnValue_ok (v : Option Obj) (h : okOpt v = true) :
    okOpt (unwrapReturnValue v) = true := by
  rcases v with _ | o
  · exact h
  · cases o <;> simpa [unwrapReturnValue, okOpt, okObj] using h

lemma okOut_newError (msg : String) (w : World) (hw : okW w = true) :
    OkOut (newError msg w) :=
  okOut_ok hw rfl

lemma okObj_bang (r : Option Obj) : okObj (evalBangOperatorExpression r) = true := by
  unfold evalBangOperatorExpression
  split_ifs <;> rfl

lemma okOut_evalMinus (right : Option Obj) (w : World) (hw : okW w = true) :
    OkOut (evalMinusPrefixOperatorExpression right w) := by
  rcases right with _ | r
  · exact okOut_err hw
  · simp only [evalMinusPrefixOperatorExpression]
    split_ifs with h
    · exact okOut_newError _ _ hw
    · cases r <;> first | exact okOut_ok hw rfl | exact okOut_err hw

lemma okOut_evalPrefix (op : String) (right : Option Obj) (w : World) (hw : okW w = true) :
    OkOut (evalPrefixExpression op right w) := by
  unfold evalPrefixExpression
  split_ifs with h1 h2
  · exact okOut_ok hw (okObj_bang right)
  · exact okOut_evalMinus right w hw
  · rcases right with _ | r
    · exact okOut_err hw
    · exact okOut_newError _ _ hw

lemma okOut_evalIntegerInfix (op : String) (l r : Obj) (w : World) (hw : okW w = true) :
    OkOut (evalIntegerInfixExpression op l r w) := by
  cases l <;> cases r <;> try exact okOut_err hw
  simp only [evalIntegerInfixExpression]
  split_ifs <;> first
    | exact okOut_ok hw rfl
    | exact okOut_ok hw (okObj_nativeBool _)
    | exact okOut_err hw
    | exact okOut_newError _ _ hw

lemma okOut_evalStringInfix (op : String) (l r : Obj) (w : World) (hw : okW w = true) :
    OkOut (evalStringInfixExpression op l r w) := by
  cases l <;> cases r <;>
    · simp only [evalStringInfixExpression]
      split_ifs with h
      · exact okOut_newError _ _ hw
      · first | exact okOut_ok hw rfl | exact okOut_err hw

lemma okOut_evalInfixRest (op : String) (left right : Option Obj) (w : World)
    (hw : okW w = true) : OkOut (evalInfixRest op left right w) := by
  unfold evalInfixRest
  split_ifs with h1 h2
  · exact okOut_ok hw (okObj_nativeBool _)
  · exact okOut_ok hw (okObj_nativeBool _)
  · split
    next l r =>
      split_ifs with h3 h4
      · exact okOut_newError _ _ hw
      · exact okOut_evalStringInfix op l r w hw
      · exact okOut_newError _ _ hw
    next => exact okOut_err hw

lemma okOut_evalInfix (op : String) (left right : Option Obj) (w : World)
    (hw : okW w = true) : OkOut (evalInfixExpression op left right w) := by
  rcases left with _ | l
  · exact okOut_err hw
  · simp only [evalInfixExpression]
    split_ifs with h1
    · split
      next => exact okOut_err hw
      next r =>
        split_ifs with h2
        · exact okOut_evalIntegerInfix op l r w hw
        · exact okOut_evalInfixRest op (some l) (some r) w hw
    · exact okOut_evalInfixRest op (some l) right w hw

lemma okOut_evalArrayIndex (arr idx : Obj) (w : World) (hw : okW w = true)
    (harr : okObj arr = true) : OkOut (evalArrayIndexExpression arr idx w) := by
  cases arr <;> cases idx <;> try exact okOut_err hw
  case arrObj.integer a els b i =>
    simp only [evalArrayIndexExpression]
    split_ifs with h
    · exact okOut_ok hw okObj_NULL
    · exact okOut_ok hw (okList_getD els i.toNat harr)

lemma okOut_evalHashIndex (hash : Obj) (index : Option Obj) (w : World)
    (hw : okW w = true) (hh : okObj hash = true) :
    OkOut (evalHashIndexExpression hash index w) := by
  cases hash <;> try exact okOut_err hw
  case hashObj a ps =>
    rcases index with _ | i
    · exact okOut_err hw
    · simp only [evalHashIndexExpression]
      rcases hk : hashKeyOf i with _ | key
      · simp only [hk]
        exact okOut_newError _ _ hw
      · simp only [hk]
        rcases hg : pairsGet ps key with _ | pr
        · simp only [hg]
          exact okOut_ok hw okObj_NULL
        · simp only [hg]
          exact okOut_ok hw (okPairs_get ps key pr hh hg).2

lemma okOut_evalIndex (left index : Option Obj) (w : World) (hw : okW w = true)
    (hl : okOpt left = true) : OkOut (evalIndexExpression left index w) := by
  rcases left with _ | l
  · exact okOut_err hw
  · simp only [evalIndexExpression]
    split_ifs with h1 h2 h3
    · split
      next => exact okOut_err hw
      next i =>
        split_ifs with h5
        · exact okOut_evalArrayIndex l i w hw hl
        · exact okOut_evalHashIndex l (some i) w hw hl
    · split
      next => exact okOut_err hw
      next i =>
        split_ifs with h5
        · exact okOut_evalArrayIndex l i w hw hl
        · exact okOut_newError _ _ hw
    · exact okOut_evalHashIndex l index w hw hl
    · exact okOut_newError _ _ hw

lemma okOut_lenBuiltin (args : List (Option Obj)) (w : World) (hw : okW w = true) :
    OkOut (lenBuiltinFn args w) := by
  unfold lenBuiltinFn
  split_ifs with h
  · exact okOut_newError _ _ hw
  · rcases hg : args.getD 0 none with _ | o
    · simp only [hg]
      exact okOut_err hw
    · simp only [hg]
      cases o <;> first | exact okOut_ok hw rfl | exact okOut_newError _ _ hw

lemma okOut_applyBuiltin (tag : BuiltinTag) (args : List (Option Obj)) (w : World)
    (hw : okW w = true) : OkOut (applyBuiltin tag args w) := by
  cases tag
  exact okOut_lenBuiltin args w hw

lemma builtins_eq_len (name : String) (b : Obj) (h : builtins name = some b) :
    b = LEN_BUILTIN := by
  unfold builtins builtinsList at h
  rcases hf : List.find? (fun p => p.1 == name) [("len", LEN_BUILTIN)] with _ | p
  · simp only [hf] at h
    exact Option.noConfusion h
  · simp only [hf] at h
    have hm := List.mem_of_find?_eq_some hf
    injection h with h2
    rw [← h2]
    simpa using congrArg Prod.snd (List.mem_singleton.mp hm)

lemma okOut_evalIdentifier (name : String) (env : EnvRef) (w : World)
    (hw : okW w = true) : OkOut (evalIdentifier name env w) := by
  unfold evalIdentifier
  rcases hg : envGet w env name with _ | val
  · simp only [hg]
    rcases hb : builtins name with _ | b
    · simp only [hb]
      exact okOut_newError _ _ hw
    · simp only [hb]
      rw [builtins_eq_len name b hb]
      exact okOut_ok hw rfl
  · simp only [hg]
    exact okOut_ok hw (envGetAux_ok w.envs hw w.envs.length env name val hg)

theorem evalInv : ∀ fuel : Nat, EvalInvAt fuel := by
  intro fuel
  induction fuel using Nat.strong_induction_on with
  | _ fuel IH =>
  cases fuel with
  | zero =>
    exact ⟨fun n env w hw => okOut_err hw,
      fun ss env prev w hw hp => okOut_err hw,
      fun ss env prev w hw hp => okOut_err hw,
      fun es env acc w hw ha => ⟨hw, fun vs h => by cases h⟩,
      fun ps env acc w hw ha => okOut_err hw,
      fun fn args w hw hf ha => okOut_err hw⟩
  | succ fuel =>
  obtain ⟨ihE, ihP, ihB, ihX, ihH, ihA⟩ := IH fuel (Nat.lt_succ_self fuel)
  refine ⟨?_, ?_, ?_, ?_, ?_, ?_⟩
  · -- eval
    intro n env w hw
    rcases n with _ | node
    · exact okOut_ok hw rfl
    · cases node with
      | program ss =>
        rw [eval_program]
        exact ihP ss env none w hw rfl
      | blockStmt ss =>
        rw [eval_blockStmt]
        exact ihB ss env none w hw rfl
      | exprStmt e =>
        rw [eval_exprStmt]
        exact ihE e env w hw
      | letStmt name e =>
        rcases h1 : eval fuel e env w with ⟨r1, w1⟩
        have H1 := ihE e env w hw
        rw [h1] at H1
        rcases r1 with r1 | v1
        · simp only [eval, h1]
          exact okOut_err H1.1
        · simp only [eval, h1]
          by_cases he : isErrorO v1 = true
          · rw [if_pos he]
            exact okOut_ok H1.1 (H1.2 _ rfl)
          · rw [if_neg he]
            exact okOut_ok (okW_envSet w1 env name v1 H1.1 (H1.2 _ rfl)) rfl
      | returnStmt e =>
        rcases h1 : eval fuel e env w with ⟨r1, w1⟩
        have H1 := ihE e env w hw
        rw [h1] at H1
        rcases r1 with r1 | v1
        · simp only [eval, h1]
          exact okOut_err H1.1
        · simp only [eval, h1]
          by_cases he : isErrorO v1 = true
          · rw [if_pos he]
            exact okOut_ok H1.1 (H1.2 _ rfl)
          · rw [if_neg he]
            exact okOut_ok H1.1 (H1.2 v1 rfl)
      | identE name => exact okOut_evalIdentifier name env w hw
      | intLit v => exact okOut_ok hw rfl
      | strLit s => exact okOut_ok hw rfl
      | boolLit b => exact okOut_ok hw (okObj_nativeBool b)
      | prefixExpr op right =>
        rcases h1 : eval fuel right env w with ⟨r1, w1⟩
        have H1 := ihE right env w hw
        rw [h1] at H1
        rcases r1 with r1 | v1
        · simp only [eval, h1]
          exact okOut_err H1.1
        · simp only [eval, h1]
          by_cases he : isErrorO v1 = true
          · rw [if_pos he]
            exact okOut_ok H1.1 (H1.2 _ rfl)
          · rw [if_neg he]
            exact okOut_evalPrefix op v1 w1 H1.1
      | infixExpr op left right =>
        rcases h1 : eval fuel left env w with ⟨r1, w1⟩
        have H1 := ihE left env w hw
        rw [h1] at H1
        rcases r1 with r1 | v1
        · simp only [eval, h1]
          exact okOut_err H1.1
        · simp only [eval, h1]
          by_cases he : isErrorO v1 = true
          · rw [if_pos he]
            exact okOut_ok H1.1 (H1.2 _ rfl)
          · rw [if_neg he]
            rcases h2 : eval fuel right env w1 with ⟨r2, w2⟩
            have H2 := ihE right env w1 H1.1
            rw [h2] at H2
            rcases r2 with r2 | v2
            · simp only [h2]
              exact okOut_err H2.1
            · simp only [h2]
              by_cases he2 : isErrorO v2 = true
              · rw [if_pos he2]
                exact okOut_ok H2.1 (H2.2 _ rfl)
              · rw [if_neg he2]
                exact okOut_evalInfix op v1 v2 w2 H2.1
      | ifExpr cond cons alt =>
        rcases h1 : eval fuel cond env w with ⟨r1, w1⟩
        have H1 := ihE cond env w hw
        rw [h1] at H1
        rcases r1 with r1 | v1
        · simp only [eval, h1]
          exact okOut_err H1.1
        · simp only [eval, h1]
          by_cases he : isErrorO v1 = true
          · rw [if_pos he]
            exact okOut_ok H1.1 (H1.2 _ rfl)
          · rw [if_neg he]
            by_cases ht : isTruthy v1 = true
            · rw [if_pos ht]
              exact ihE (some cons) env w1 H1.1
            · rw [if_neg ht]
              rcases alt with _ | altN
              · exact okOut_ok H1.1 okObj_NULL
              · exact ihE (some altN) env w1 H1.1
      | fnLit params body => exact okOut_ok hw rfl
      | callExpr fn args =>
        rcases h1 : eval fuel fn env w with ⟨r1, w1⟩
        have H1 := ihE fn env w hw
        rw [h1] at H1
        rcases r1 with r1 | fv
        · simp only [eval, h1]
          exact okOut_err H1.1
        · simp only [eval, h1]
          by_cases he : isErrorO fv = true
          · rw [if_pos he]
            exact okOut_ok H1.1 (H1.2 _ rfl)
          · rw [if_neg he]
            rcases h2 : evalExpressionsA fuel args env [] w1 with ⟨r2, w2⟩
            have H2 := ihX args env [] w1 H1.1 rfl
            rw [h2] at H2
            rcases r2 with r2 | argVals
            · simp only [h2]
              exact okOut_err H2.1
            · simp only [h2]
              by_cases hs : (argVals.length == 1 && isErrorO (argVals.getD 0 none)) = true
              · rw [if_pos hs]
                exact okOut_ok H2.1 (okList_getD argVals 0 (H2.2 _ rfl))
              · rw [if_neg hs]
                exact ihA fv argVals w2 H2.1 (H1.2 _ rfl) (H2.2 _ rfl)
      | arrayLit elems =>
        rcases h2 : evalExpressionsA fuel elems env [] w with ⟨r2, w2⟩
        have H2 := ihX elems env [] w hw rfl
        rw [h2] at H2
        rcases r2 with r2 | els
        · simp only [eval, h2]
          exact okOut_err H2.1
        · simp only [eval, h2]
          by_cases hs : (els.length == 1 && isErrorO (els.getD 0 none)) = true
          · rw [if_pos hs]
            exact okOut_ok H2.1 (okList_getD els 0 (H2.2 _ rfl))
          · rw [if_neg hs]
            exact okOut_ok H2.1 (H2.2 els rfl)
      | hashLit pairs =>
        simp only [eval]
        exact ihH pairs env [] w hw rfl
      | indexExpr left idx =>
        rcases h1 : eval fuel left env w with ⟨r1, w1⟩
        have H1 := ihE left env w hw
        rw [h1] at H1
        rcases r1 with r1 | v1
        · simp only [eval, h1]
          exact okOut_err H1.1
        · simp only [eval, h1]
          by_cases he : isErrorO v1 = true
          · rw [if_pos he]
            exact okOut_ok H1.1 (H1.2 _ rfl)
          · rw [if_neg he]
            rcases h2 : eval fuel idx env w1 with ⟨r2, w2⟩
            have H2 := ihE idx env w1 H1.1
            rw [h2] at H2
            rcases r2 with r2 | v2
            · simp only [h2]
              exact okOut_err H2.1
            · simp only [h2]
              by_cases he2 : isErrorO v2 = true
              · rw [if_pos he2]
                exact okOut_ok H2.1 (H2.2 _ rfl)
              · rw [if_neg he2]
                exact okOut_evalIndex v1 v2 w2 H2.1 (H1.2 _ rfl)
  · -- evalProgramA
    intro ss env prev w hw hp
    rcases ss with _ | ⟨s, rest⟩
    · exact okOut_ok hw hp
    · rcases h1 : eval fuel (some s) env w with ⟨r1, w1⟩
      have H1 := ihE (some s) env w hw
      rw [h1] at H1
      rcases r1 with r1 | v1
      · simp only [evalProgramA, h1]
        exact okOut_err H1.1
      · rcases v1 with _ | o
        · simp only [evalProgramA, h1]
          exact ihP rest env none w1 H1.1 rfl
        · cases o
          case retVal a v =>
            simp only [evalProgramA, h1]
            exact okOut_ok H1.1 (H1.2 (some (.retVal a v)) rfl)
          case errObj a m =>
            simp only [evalProgramA, h1]
            exact okOut_ok H1.1 (H1.2 (some (.errObj a m)) rfl)
          all_goals simp only [evalProgramA, h1]
          all_goals exact ihP rest env _ w1 H1.1 (H1.2 _ rfl)
  · -- evalBlockA
    intro ss env prev w hw hp
    rcases ss with _ | ⟨s, rest⟩
    · exact okOut_ok hw hp
    · rcases h1 : eval fuel (some s) env w with ⟨r1, w1⟩
      have H1 := ihE (some s) env w hw
      rw [h1] at H1
      rcases r1 with r1 | v1
      · simp only [evalBlockA, h1]
        exact okOut_err H1.1
      · rcases v1 with _ | o
        · simp only [evalBlockA, h1]
          exact ihB rest env none w1 H1.1 rfl
        · simp only [evalBlockA, h1]
          by_cases ht : (typeOf o == RETURN_VALUE_OBJ || typeOf o == ERROR_OBJ) = true
          · rw [if_pos ht]
            exact okOut_ok H1.1 (H1.2 (some o) rfl)
          · rw [if_neg ht]
            exact ihB rest env (some o) w1 H1.1 (H1.2 (some o) rfl)
  · -- evalExpressionsA
    intro es env acc w hw ha
    rcases es with _ | ⟨e, rest⟩
    · exact ⟨hw, fun vs h => by cases h; exact ha⟩
    · rcases h1 : eval fuel e env w with ⟨r1, w1⟩
      have H1 := ihE e env w hw
      rw [h1] at H1
      rcases r1 with r1 | v1
      · simp only [evalExpressionsA, h1]
        exact ⟨H1.1, fun vs h => by cases h⟩
      · simp only [evalExpressionsA, h1]
        by_cases he : isErrorO v1 = true
        · rw [if_pos he]
          refine ⟨H1.1, fun vs h => ?_⟩
          cases h
          simp [okList, H1.2 _ rfl]
        · rw [if_neg he]
          exact ihX rest env (acc ++ [v1]) w1 H1.1
            (by rw [okList_append]; simp [ha, H1.2 _ rfl])
  · -- evalHashPairsA
    intro ps env acc w hw ha
    rcases ps with _ | ⟨⟨kn, vn⟩, rest⟩
    · exact okOut_ok hw ha
    · rcases h1 : eval fuel kn env w with ⟨r1, w1⟩
      have H1 := ihE kn env w hw
      rw [h1] at H1
      rcases r1 with r1 | key
      · simp only [evalHashPairsA, h1]
        exact okOut_err H1.1
      · simp only [evalHashPairsA, h1]
        by_cases he : isErrorO key = true
        · rw [if_pos he]
          exact okOut_ok H1.1 (H1.2 _ rfl)
        · rw [if_neg he]
          rcases key with _ | kobj
          · exact okOut_err H1.1
          · rcases hk : hashKeyOf kobj with _ | hkv
            · simp only [hk]
              exact okOut_newError _ _ H1.1
            · simp only [hk]
              rcases h2 : eval fuel vn env w1 with ⟨r2, w2⟩
              have H2 := ihE vn env w1 H1.1
              rw [h2] at H2
              rcases r2 with r2 | value
              · simp only [h2]
                exact okOut_err H2.1
              · simp only [h2]
                by_cases he2 : isErrorO value = true
                · rw [if_pos he2]
                  exact okOut_ok H2.1 (H2.2 _ rfl)
                · rw [if_neg he2]
                  exact ihH rest env (pairsSet acc hkv (kobj, value)) w2 H2.1
                    (okPairs_set acc hkv (kobj, value) ha (H1.2 (some kobj) rfl)
                      (H2.2 value rfl))
  · -- applyFunction
    intro fn args w hw hf ha
    rcases fn with _ | f
    · exact okOut_err hw
    · cases f with
      | funObj a params body fenv =>
        simp only [applyFunction, newEnclosedEnvironment]
        rcases hb : bindParams ⟨w.envs ++ [⟨[], some fenv⟩], w.nextAddr⟩ w.envs.length
            params args with r | w2
        · simp only [hb]
          exact okOut_err (okEnvs_append_empty w.envs (some fenv) hw)
        · simp only [hb]
          rcases h2 : eval fuel (some body) w.envs.length w2 with ⟨r2, w3⟩
          have hw1 : okW (⟨w.envs ++ [⟨[], some fenv⟩], w.nextAddr⟩ : World) = true :=
            okEnvs_append_empty w.envs (some fenv) hw
          have H2 := ihE (some body) w.envs.length w2
            (bindParams_ok params args ⟨w.envs ++ [⟨[], some fenv⟩], w.nextAddr⟩
              w.envs.length w2 hw1 ha hb)
          rw [h2] at H2
          rcases r2 with r2 | v2
          · simp only [h2]
            exact okOut_err H2.1
          · simp only [h2]
            exact okOut_ok H2.1 (unwrapReturnValue_ok v2 (H2.2 _ rfl))
      | builtinObj a tag => exact okOut_applyBuiltin tag args w hw
      | integer a v => exact okOut_newError _ _ hw
      | boolean a v => exact okOut_newError _ _ hw
      | nullObj a => exact okOut_newError _ _ hw
      | retVal a v => exact okOut_newError _ _ hw
      | strObj a s => exact okOut_newError _ _ hw
      | errObj a m => exact okOut_newError _ _ hw
      | arrObj a els => exact okOut_newError _ _ hw
      | hashObj a ps2 => exact okOut_newError _ _ hw

/-- C9: an infix `==`/`!=` whose operands are not both Integers is decided
by Go interface equality, i.e. reference identity (`refEq`: same dynamic
type, same address): two String objects with equal contents at different
addresses compare unequal (so `"a" == "a"` evaluates to FALSE while
`let s = "a"; s == s` evaluates to TRUE), while every Boolean the
evaluator ever returns is one of the two shared singletons and every Null
is the shared NULL, making identity comparison value-correct on booleans
and nulls. -/
theorem c9_reference_equality
    (l r : Obj) (w : World)
    (hnotint : ¬(typeOf l = INTEGER_OBJ ∧ typeOf r = INTEGER_OBJ))
    (fuel : Nat) (n : Option Node) (env : EnvRef) (w0 : World)
    (hw0 : okW w0 = true) :
    evalInfixExpression "==" (some l) (some r) w
      = (.ok (some (nativeBoolToBooleanObject (refEq l r))), w) ∧
    evalInfixExpression "!=" (some l) (some r) w
      = (.ok (some (nativeBoolToBooleanObject (!refEq l r))), w) ∧
    (∀ (a b : Addr) (s : String), a ≠ b → refEq (.strObj a s) (.strObj b s) = false) ∧
    (∀ (a : Addr) (v : Bool), (eval fuel n env w0).1 = .ok (some (.boolean a v)) →
      Obj.boolean a v = nativeBoolToBooleanObject v) ∧
    (∀ a : Addr, (eval fuel n env w0).1 = .ok (some (.nullObj a)) → Obj.nullObj a = NULL) ∧
    (∀ x y : Bool,
      refEq (nativeBoolToBooleanObject x) (nativeBoolToBooleanObject y) = (x == y)) ∧
    refEq NULL NULL = true ∧
    (runProgram 9 strEqFresh).1 = .ok (some FALSE) ∧
    (runProgram 9 strEqSame).1 = .ok (some TRUE) := by
  refine ⟨?_, ?_, ?_, ?_, ?_, ?_, ?_, ?_, ?_⟩
  · simp only [evalInfixExpression]
    by_cases hl : (typeOf l == INTEGER_OBJ) = true
    · rw [if_pos hl]
      by_cases hr : (typeOf r == INTEGER_OBJ) = true
      · exact absurd ⟨eq_of_beq hl, eq_of_beq hr⟩ hnotint
      · rw [if_neg hr]
        rfl
    · rw [if_neg hl]
      rfl
  · simp only [evalInfixExpression]
    by_cases hl : (typeOf l == INTEGER_OBJ) = true
    · rw [if_pos hl]
      by_cases hr : (typeOf r == INTEGER_OBJ) = true
      · exact absurd ⟨eq_of_beq hl, eq_of_beq hr⟩ hnotint
      · rw [if_neg hr]
        rfl
    · rw [if_neg hl]
      rfl
  · intro a b s hne
    simp [refEq, typeOf, addrOf, hne]
  · intro a v h
    have H := ((evalInv fuel).1 n env w0 hw0).2 (some (.boolean a v)) h
    cases v
    · simp [okOpt, okObj] at H
      subst H
      rfl
    · simp [okOpt, okObj] at H
      subst H
      rfl
  · intro a h
    have H := ((evalInv fuel).1 n env w0 hw0).2 (some (.nullObj a)) h
    simp [okOpt, okObj] at H
    subst H
    rfl
  · intro x y
    cases x <;> cases y <;> rfl
  · rfl
  · rfl
  · rfl

/-- A closed instance of `c9_reference_equality`: two String objects with
the same contents at addresses 4 and 5 compare with `==` to the FALSE
singleton. -/
theorem c9_witness :
    (¬(typeOf (Obj.strObj 4 "a") = INTEGER_OBJ ∧ typeOf (Obj.strObj 5 "a") = INTEGER_OBJ)) ∧
    okW initialWorld = true ∧
    evalInfixExpression "==" (some (.strObj 4 "a")) (some (.strObj 5 "a")) initialWorld
      = (.ok (some (nativeBoolToBooleanObject (refEq (.strObj 4 "a") (.strObj 5 "a")))),
         initialWorld) ∧
    refEq (Obj.strObj 4 "a") (Obj.strObj 5 "a") = false := by
  have h := c9_reference_equality (.strObj 4 "a") (.strObj 5 "a") initialWorld
    (by decide) 9 none 0 initialWorld rfl
  exact ⟨by decide, rfl, h.1, h.2.2.1 4 5 "a" (by decide)⟩

end Sloth
